import Mathlib

/-!
Verification of the buyer-ledger reconstruction and profit-accounting engine of
the Hunter-BSC-MemeRadar repository (`fourmeme_etherscan.py`).

The development shallowly embeds the core of `FourMemeAnalyzer._analyze_transfers`
together with its helper `_get_bnb_amount_from_tx`:

* Python dictionaries (insertion ordered) are modelled as association lists over
  `String` keys, with new keys appended at the end and in-place updates keeping
  the position of existing keys.
* Python `int` is modelled as `ℤ` (or `ℕ` for values that are non-negative by
  construction), Python `float` arithmetic as exact `ℚ` arithmetic (the spec
  itself flags the source's floating point as a latent precision concern; all
  claims below are about the exact arithmetic the code expresses).
* `datetime.fromtimestamp(ts).strftime(%Y-%m-%d %H:%M:%S)` is modelled for
  non-negative timestamps under a fixed zero UTC offset by an executable
  proleptic-Gregorian conversion (`formatTimestamp`).
* `list.sort(key=...)`, Python's stable sort, is modelled by the stable
  `List.insertionSort` with the lexicographic code-point comparison `strLeB`
  that Python uses on strings (a stable sort is extensionally determined by
  the key order, so any stable sort models it).
* The two Etherscan lookups inside `_get_bnb_amount_from_tx` are modelled by
  explicit response values covering success, upstream failure and malformed
  payloads; the network is a function parameter `lookup` of the pipeline.
-/

namespace MemeRadar

/-! ## Python string comparison (lexicographic by code point) -/

/-- Lexicographic strict comparison of character lists by code point,
the order Python uses when comparing `str` values. -/
def charListLtb : List Char → List Char → Bool
  | [], [] => false
  | [], _ :: _ => true
  | _ :: _, [] => false
  | a :: as, b :: bs =>
    if a.toNat < b.toNat then true else if b.toNat < a.toNat then false else charListLtb as bs

/-- Python `s1 <= s2` on strings. -/
def strLeB (a b : String) : Bool := !(charListLtb b.data a.data)

/-- Python `str.lower()` for the ASCII range, which covers the hex address
and hash strings this program lowercases. -/
def charLower (c : Char) : Char :=
  if 65 ≤ c.toNat ∧ c.toNat ≤ 90 then Char.ofNat (c.toNat + 32) else c

def strLower (s : String) : String := ⟨s.data.map charLower⟩

theorem charListLtb_irrefl (a : List Char) : charListLtb a a = false := by
  induction a with
  | nil => rfl
  | cons x xs ih => simp [charListLtb, ih]

theorem charListLtb_trans {a b c : List Char} (h1 : charListLtb a b = true)
    (h2 : charListLtb b c = true) : charListLtb a c = true := by
  induction a generalizing b c with
  | nil =>
    cases c with
    | nil => cases b <;> simp_all [charListLtb]
    | cons x xs => simp [charListLtb]
  | cons x xs ih =>
    cases b with
    | nil => simp [charListLtb] at h1
    | cons y ys =>
      cases c with
      | nil => simp [charListLtb] at h2
      | cons z zs =>
        simp only [charListLtb] at h1 h2 ⊢
        split_ifs at h1 h2 ⊢ <;> try omega
        all_goals try rfl
        all_goals exact ih h1 h2

theorem charToNat_injective {x y : Char} (h : x.toNat = y.toNat) : x = y :=
  Char.ext (UInt32.ext h)

theorem charListLtb_antisymm {a b : List Char} (h1 : charListLtb a b = false)
    (h2 : charListLtb b a = false) : a = b := by
  induction a generalizing b with
  | nil =>
    cases b with
    | nil => rfl
    | cons y ys => simp [charListLtb] at h1
  | cons x xs ih =>
    cases b with
    | nil => simp [charListLtb] at h2
    | cons y ys =>
      simp only [charListLtb] at h1 h2
      split_ifs at h1 h2 <;> try omega
      have hx : x = y := charToNat_injective (by omega)
      rw [hx, ih h1 h2]

/-! ## Model of `datetime.fromtimestamp(...).strftime('%Y-%m-%d %H:%M:%S')`
for non-negative Unix timestamps under a fixed zero UTC offset. -/

def isLeap (y : ℕ) : Bool := (y % 4 == 0 && y % 100 != 0) || y % 400 == 0

def daysInYear (y : ℕ) : ℕ := if isLeap y then 366 else 365

def monthLen (leap : Bool) (m : ℕ) : ℕ :=
  if m = 2 then (if leap then 29 else 28)
  else if m = 4 ∨ m = 6 ∨ m = 9 ∨ m = 11 then 30
  else 31

/-- Walk forward one year at a time from `y`, consuming days.  The fuel makes
the recursion structural; `yearAndDoy` supplies enough fuel for any input. -/
def yearAndDoyAux : ℕ → ℕ → ℕ → ℕ × ℕ
  | 0, y, d => (y, d)
  | fuel + 1, y, d =>
    if d < daysInYear y then (y, d) else yearAndDoyAux fuel (y + 1) (d - daysInYear y)

/-- Year and zero-based day-of-year of `d` days after 1970-01-01. -/
def yearAndDoy (d : ℕ) : ℕ × ℕ := yearAndDoyAux (d / 365 + 1) 1970 d

/-- Walk forward one month at a time from month `m`, consuming days of a
zero-based day-of-year; returns the month and one-based day of month. -/
def monthAndDayAux : ℕ → Bool → ℕ → ℕ → ℕ × ℕ
  | 0, _, m, d => (m, d + 1)
  | fuel + 1, leap, m, d =>
    if d < monthLen leap m ∨ 12 ≤ m then (m, d + 1)
    else monthAndDayAux fuel leap (m + 1) (d - monthLen leap m)

/-- Proleptic-Gregorian `(year, month, day)` of `z` days after 1970-01-01. -/
def civilFromDays (z : ℕ) : ℕ × ℕ × ℕ :=
  let yd := yearAndDoy z
  let md := monthAndDayAux 12 (isLeap yd.1) 1 yd.2
  (yd.1, md.1, md.2)

/-- Zero-padded fixed-width decimal rendering, width `w`, of `n < 10 ^ w`. -/
def padNum : ℕ → ℕ → List Char
  | 0, _ => []
  | w + 1, n => Char.ofNat (48 + n / 10 ^ w) :: padNum w (n % 10 ^ w)

/-- The characters of `strftime('%Y-%m-%d %H:%M:%S')` for a timestamp `t ≥ 0`. -/
def fmtChars (t : ℕ) : List Char :=
  let sod := t % 86400
  let c := civilFromDays (t / 86400)
  padNum 4 c.1 ++ '-' :: (padNum 2 c.2.1 ++ '-' :: (padNum 2 c.2.2 ++
    ' ' :: (padNum 2 (sod / 3600) ++ ':' :: (padNum 2 (sod % 3600 / 60) ++
    ':' :: padNum 2 (sod % 60)))))

/-- `datetime.fromtimestamp(t).strftime('%Y-%m-%d %H:%M:%S')`, modelled for
non-negative `t` (negative timestamps do not occur in the analysis). -/
def formatTimestamp (t : ℤ) : String := ⟨fmtChars t.toNat⟩

-- Spot checks of the conversion against Python's datetime module.
example : civilFromDays 0 = (1970, 1, 1) := by decide
example : civilFromDays 19722 = (2023, 12, 31) := by decide
example : civilFromDays 19723 = (2024, 1, 1) := by decide
example : civilFromDays 59 = (1970, 3, 1) := by decide
example : civilFromDays 11016 = (2000, 2, 29) := by decide
example : civilFromDays 20000 = (2024, 10, 4) := by decide
example : formatTimestamp 0 = "1970-01-01 00:00:00" := by decide
example : formatTimestamp 1700000005 = "2023-11-14 22:13:25" := by decide

/-! ### Monotonicity of the calendar conversion -/

theorem daysInYear_bounds (y : ℕ) : 365 ≤ daysInYear y ∧ daysInYear y ≤ 366 := by
  unfold daysInYear; split <;> omega

/-- Total days in years `y, y+1, ..., y+n-1`. -/
def sumYearDays (y : ℕ) : ℕ → ℕ
  | 0 => 0
  | n + 1 => daysInYear y + sumYearDays (y + 1) n

theorem sumYearDays_succ (y n : ℕ) :
    sumYearDays y (n + 1) = sumYearDays y n + daysInYear (y + n) := by
  induction n generalizing y with
  | zero => simp [sumYearDays]
  | succ k ih =>
    rw [sumYearDays, ih (y + 1), sumYearDays]
    have : y + 1 + k = y + (k + 1) := by omega
    rw [this]
    omega

theorem sumYearDays_ge (y n : ℕ) : 365 * n ≤ sumYearDays y n := by
  induction n generalizing y with
  | zero => simp [sumYearDays]
  | succ k ih =>
    rw [sumYearDays]
    have h1 := (daysInYear_bounds y).1
    have h2 := ih (y + 1)
    omega

theorem sumYearDays_mono (y : ℕ) {n1 n2 : ℕ} (h : n1 ≤ n2) :
    sumYearDays y n1 ≤ sumYearDays y n2 := by
  induction n2 with
  | zero =>
    have h0 : n1 = 0 := by omega
    subst h0; exact le_rfl
  | succ k ih =>
    rcases Nat.lt_or_ge n1 (k + 1) with hlt | hge
    · have h2 := ih (by omega)
      rw [sumYearDays_succ]
      omega
    · have h0 : n1 = k + 1 := by omega
      subst h0; exact le_rfl

theorem yearAndDoyAux_spec (fuel : ℕ) : ∀ y d, d < 365 * fuel →
    ∃ n, (yearAndDoyAux fuel y d).1 = y + n ∧
      sumYearDays y n + (yearAndDoyAux fuel y d).2 = d ∧
      (yearAndDoyAux fuel y d).2 < daysInYear (y + n) := by
  induction fuel with
  | zero => intro y d h; exact absurd h (by omega)
  | succ f ih =>
    intro y d h
    rw [yearAndDoyAux]
    split
    · rename_i hlt
      exact ⟨0, by simp, ⟨by simp [sumYearDays], by simpa using hlt⟩⟩
    · rename_i hge
      have hb := daysInYear_bounds y
      obtain ⟨n, h1, h2, h3⟩ := ih (y + 1) (d - daysInYear y) (by omega)
      refine ⟨n + 1, by omega, ?_, ?_⟩
      · rw [sumYearDays]; omega
      · have heq : y + (n + 1) = y + 1 + n := by omega
        rw [heq]; exact h3

theorem yearAndDoy_spec (d : ℕ) :
    ∃ n, (yearAndDoy d).1 = 1970 + n ∧
      sumYearDays 1970 n + (yearAndDoy d).2 = d ∧
      (yearAndDoy d).2 < daysInYear (1970 + n) := by
  apply yearAndDoyAux_spec
  omega

theorem yearAndDoy_mono {d1 d2 : ℕ} (h : d1 < d2) :
    (yearAndDoy d1).1 < (yearAndDoy d2).1 ∨
      ((yearAndDoy d1).1 = (yearAndDoy d2).1 ∧ (yearAndDoy d1).2 < (yearAndDoy d2).2) := by
  obtain ⟨n1, ha1, ha2, ha3⟩ := yearAndDoy_spec d1
  obtain ⟨n2, hb1, hb2, hb3⟩ := yearAndDoy_spec d2
  rcases Nat.lt_trichotomy n1 n2 with hlt | heq | hgt
  · left; omega
  · right; subst heq; omega
  · exfalso
    have hs : sumYearDays 1970 (n2 + 1) ≤ sumYearDays 1970 n1 := sumYearDays_mono 1970 (by omega)
    rw [sumYearDays_succ] at hs
    omega

theorem yearAndDoy_year_le (d : ℕ) : (yearAndDoy d).1 ≤ 1970 + d / 365 := by
  obtain ⟨n, h1, h2, _⟩ := yearAndDoy_spec d
  have := sumYearDays_ge 1970 n
  omega

theorem yearAndDoy_year_ge (d : ℕ) : 1970 ≤ (yearAndDoy d).1 := by
  obtain ⟨n, h1, _, _⟩ := yearAndDoy_spec d
  omega

theorem monthLen_bounds (leap : Bool) (m : ℕ) : 28 ≤ monthLen leap m ∧ monthLen leap m ≤ 31 := by
  unfold monthLen; split_ifs <;> simp_all <;> omega

/-- Total days in months `m, m+1, ..., m+k-1`. -/
def sumMonthLen (leap : Bool) (m : ℕ) : ℕ → ℕ
  | 0 => 0
  | k + 1 => monthLen leap m + sumMonthLen leap (m + 1) k

theorem sumMonthLen_succ (leap : Bool) (m k : ℕ) :
    sumMonthLen leap m (k + 1) = sumMonthLen leap m k + monthLen leap (m + k) := by
  induction k generalizing m with
  | zero => simp [sumMonthLen]
  | succ j ih =>
    rw [sumMonthLen, ih (m + 1), sumMonthLen]
    have : m + 1 + j = m + (j + 1) := by omega
    rw [this]
    omega

theorem sumMonthLen_mono (leap : Bool) (m : ℕ) {k1 k2 : ℕ} (h : k1 ≤ k2) :
    sumMonthLen leap m k1 ≤ sumMonthLen leap m k2 := by
  induction k2 with
  | zero =>
    have h0 : k1 = 0 := by omega
    subst h0; exact le_rfl
  | succ k ih =>
    rcases Nat.lt_or_ge k1 (k + 1) with hlt | hge
    · have h2 := ih (by omega)
      rw [sumMonthLen_succ]
      have h3 := (monthLen_bounds leap (m + k)).1
      omega
    · have h0 : k1 = k + 1 := by omega
      subst h0; exact le_rfl

theorem monthAndDayAux_spec (fuel : ℕ) : ∀ (leap : Bool) (m d : ℕ),
    12 ≤ m + fuel → 1 ≤ m → m ≤ 12 →
    ∃ k, (monthAndDayAux fuel leap m d).1 = m + k ∧ m + k ≤ 12 ∧
      sumMonthLen leap m k ≤ d ∧
      (monthAndDayAux fuel leap m d).2 = d - sumMonthLen leap m k + 1 ∧
      (d - sumMonthLen leap m k < monthLen leap (m + k) ∨ m + k = 12) := by
  induction fuel with
  | zero =>
    intro leap m d hf hm hm12
    exact ⟨0, rfl, by omega, by simp [sumMonthLen], by simp [monthAndDayAux, sumMonthLen],
      Or.inr (by omega)⟩
  | succ f ih =>
    intro leap m d hf hm hm12
    rw [monthAndDayAux]
    split
    · rename_i hstop
      refine ⟨0, rfl, by omega, by simp [sumMonthLen], by simp [sumMonthLen], ?_⟩
      rcases hstop with h | h
      · left; simpa [sumMonthLen] using h
      · right; omega
    · rename_i hnot
      push_neg at hnot
      obtain ⟨hge, hlt12⟩ := hnot
      obtain ⟨k, h1, h2, h3, h4, h5⟩ :=
        ih leap (m + 1) (d - monthLen leap m) (by omega) (by omega) (by omega)
      refine ⟨k + 1, by omega, by omega, ?_, ?_, ?_⟩
      · rw [sumMonthLen]; omega
      · rw [sumMonthLen]; rw [h4]; congr 1; omega
      · rw [sumMonthLen]
        have heq : m + 1 + k = m + (k + 1) := by omega
        rw [heq] at h5
        rcases h5 with h | h
        · left; omega
        · right; omega
theorem monthAndDay_mono (leap : Bool) {d1 d2 : ℕ} (h : d1 < d2) :
    (monthAndDayAux 12 leap 1 d1).1 < (monthAndDayAux 12 leap 1 d2).1 ∨
      ((monthAndDayAux 12 leap 1 d1).1 = (monthAndDayAux 12 leap 1 d2).1 ∧
        (monthAndDayAux 12 leap 1 d1).2 < (monthAndDayAux 12 leap 1 d2).2) := by
  obtain ⟨k1, a1, a2, a3, a4, a5⟩ := monthAndDayAux_spec 12 leap 1 d1 (by omega) le_rfl (by omega)
  obtain ⟨k2, b1, b2, b3, b4, b5⟩ := monthAndDayAux_spec 12 leap 1 d2 (by omega) le_rfl (by omega)
  rcases Nat.lt_trichotomy k1 k2 with hlt | heq | hgt
  · left; omega
  · right; subst heq; omega
  · exfalso
    have hs := sumMonthLen_mono leap 1 (show k2 + 1 ≤ k1 by omega)
    rw [sumMonthLen_succ] at hs
    rcases b5 with hb | hb
    · omega
    · omega

theorem monthAndDay_range (leap : Bool) (d : ℕ) (hd : d ≤ 365) :
    1 ≤ (monthAndDayAux 12 leap 1 d).1 ∧ (monthAndDayAux 12 leap 1 d).1 ≤ 12 ∧
      1 ≤ (monthAndDayAux 12 leap 1 d).2 ∧ (monthAndDayAux 12 leap 1 d).2 ≤ 32 := by
  obtain ⟨k, a1, a2, a3, a4, a5⟩ := monthAndDayAux_spec 12 leap 1 d (by omega) le_rfl (by omega)
  refine ⟨by omega, by omega, by omega, ?_⟩
  rcases a5 with hb | hb
  · have := (monthLen_bounds leap (1 + k)).2
    omega
  · have hk : k = 11 := by omega
    subst hk
    have hsum : 334 ≤ sumMonthLen leap 1 11 := by cases leap <;> decide
    omega

theorem civilFromDays_strictMono {z1 z2 : ℕ} (h : z1 < z2) :
    (civilFromDays z1).1 < (civilFromDays z2).1 ∨
      ((civilFromDays z1).1 = (civilFromDays z2).1 ∧
        ((civilFromDays z1).2.1 < (civilFromDays z2).2.1 ∨
          ((civilFromDays z1).2.1 = (civilFromDays z2).2.1 ∧
            (civilFromDays z1).2.2 < (civilFromDays z2).2.2))) := by
  simp only [civilFromDays]
  rcases yearAndDoy_mono h with hy | ⟨hy, hd⟩
  · left; exact hy
  · right
    rw [hy]
    exact ⟨rfl, monthAndDay_mono (isLeap (yearAndDoy z2).1) hd⟩

theorem civilFromDays_ranges (z : ℕ) (hz : z ≤ 2893518) :
    1970 ≤ (civilFromDays z).1 ∧ (civilFromDays z).1 < 10000 ∧
      1 ≤ (civilFromDays z).2.1 ∧ (civilFromDays z).2.1 ≤ 12 ∧
      1 ≤ (civilFromDays z).2.2 ∧ (civilFromDays z).2.2 ≤ 32 := by
  simp only [civilFromDays]
  have h1 := yearAndDoy_year_ge z
  have h2 := yearAndDoy_year_le z
  have h3 : z / 365 ≤ 7927 := by omega
  obtain ⟨n, s1, s2, s3⟩ := yearAndDoy_spec z
  have hdoy : (yearAndDoy z).2 ≤ 365 := by
    have := (daysInYear_bounds (1970 + n)).2
    omega
  have h4 := monthAndDay_range (isLeap (yearAndDoy z).1) (yearAndDoy z).2 hdoy
  exact ⟨by omega, by omega, h4.1, h4.2.1, h4.2.2.1, h4.2.2.2⟩

/-! ### Fixed-width decimal rendering respects the numeric order -/

theorem padNum_length (w : ℕ) : ∀ n, (padNum w n).length = w := by
  induction w with
  | zero => intro n; rfl
  | succ w ih => intro n; simp [padNum, ih]

theorem charOfNat_digit_toNat {k : ℕ} (h : k ≤ 9) : (Char.ofNat (48 + k)).toNat = 48 + k := by
  interval_cases k <;> decide

theorem padNum_ltb {w : ℕ} : ∀ {n1 n2 : ℕ}, n1 < n2 → n2 < 10 ^ w →
    charListLtb (padNum w n1) (padNum w n2) = true := by
  induction w with
  | zero =>
    intro n1 n2 h h2
    simp at h2
    omega
  | succ w ih =>
    intro n1 n2 h h2
    have hp : 0 < 10 ^ w := pow_pos (by norm_num) w
    have hd2 : n2 / 10 ^ w ≤ 9 := by
      have hlt : n2 / 10 ^ w < 10 := (Nat.div_lt_iff_lt_mul hp).mpr (by rw [pow_succ] at h2; omega)
      omega
    have hd12 : n1 / 10 ^ w ≤ n2 / 10 ^ w := Nat.div_le_div_right (le_of_lt h)
    rw [padNum, padNum, charListLtb]
    rw [charOfNat_digit_toNat (by omega), charOfNat_digit_toNat hd2]
    rcases Nat.lt_or_ge (n1 / 10 ^ w) (n2 / 10 ^ w) with hlt | hge
    · rw [if_pos (by omega)]
    · have heq : n1 / 10 ^ w = n2 / 10 ^ w := by omega
      rw [if_neg (by omega), if_neg (by omega)]
      have e1 := Nat.div_add_mod n1 (10 ^ w)
      have e2 := Nat.div_add_mod n2 (10 ^ w)
      rw [heq] at e1
      have hm2 : n2 % 10 ^ w < 10 ^ w := Nat.mod_lt _ hp
      exact ih (by omega) hm2

theorem charListLtb_cons_same (c : Char) (a b : List Char) :
    charListLtb (c :: a) (c :: b) = charListLtb a b := by
  simp [charListLtb]

theorem charListLtb_append_left (p : List Char) (a b : List Char) :
    charListLtb (p ++ a) (p ++ b) = charListLtb a b := by
  induction p with
  | nil => rfl
  | cons x xs ih => simpa [charListLtb_cons_same] using ih

theorem charListLtb_append_of_ltb : ∀ {a b : List Char} (x y : List Char),
    charListLtb a b = true → a.length = b.length → charListLtb (a ++ x) (b ++ y) = true := by
  intro a
  induction a with
  | nil =>
    intro b x y h hlen
    cases b with
    | nil => simp [charListLtb_irrefl] at h
    | cons z zs => simp at hlen
  | cons c cs ih =>
    intro b x y h hlen
    cases b with
    | nil => simp at hlen
    | cons z zs =>
      rw [List.cons_append, List.cons_append, charListLtb]
      rw [charListLtb] at h
      split_ifs at h ⊢ <;> try omega
      · rfl
      · exact ih x y h (by simpa using hlen)

/-- The characters of a full `%Y-%m-%d %H:%M:%S` rendering. -/
def dateTimeChars (y mo d hh mi ss : ℕ) : List Char :=
  padNum 4 y ++ '-' :: (padNum 2 mo ++ '-' :: (padNum 2 d ++
    ' ' :: (padNum 2 hh ++ ':' :: (padNum 2 mi ++ ':' :: padNum 2 ss))))

theorem dateTimeChars_ltb {y1 mo1 d1 h1 mi1 s1 y2 mo2 d2 h2 mi2 s2 : ℕ}
    (hy2 : y2 < 10000) (hmo2 : mo2 < 100) (hd2 : d2 < 100)
    (hh2 : h2 < 100) (hmi2 : mi2 < 100) (hs2 : s2 < 100)
    (hlex : y1 < y2 ∨ (y1 = y2 ∧ (mo1 < mo2 ∨ (mo1 = mo2 ∧ (d1 < d2 ∨ (d1 = d2 ∧
      (h1 < h2 ∨ (h1 = h2 ∧ (mi1 < mi2 ∨ (mi1 = mi2 ∧ s1 < s2)))))))))) :
    charListLtb (dateTimeChars y1 mo1 d1 h1 mi1 s1) (dateTimeChars y2 mo2 d2 h2 mi2 s2) = true := by
  unfold dateTimeChars
  rcases hlex with hy | ⟨hy, hlex⟩
  · exact charListLtb_append_of_ltb _ _ (padNum_ltb hy hy2) (by rw [padNum_length, padNum_length])
  subst hy
  rw [charListLtb_append_left, charListLtb_cons_same]
  rcases hlex with hmo | ⟨hmo, hlex⟩
  · exact charListLtb_append_of_ltb _ _ (padNum_ltb hmo hmo2) (by rw [padNum_length, padNum_length])
  subst hmo
  rw [charListLtb_append_left, charListLtb_cons_same]
  rcases hlex with hd | ⟨hd, hlex⟩
  · exact charListLtb_append_of_ltb _ _ (padNum_ltb hd hd2) (by rw [padNum_length, padNum_length])
  subst hd
  rw [charListLtb_append_left, charListLtb_cons_same]
  rcases hlex with hh | ⟨hh, hlex⟩
  · exact charListLtb_append_of_ltb _ _ (padNum_ltb hh hh2) (by rw [padNum_length, padNum_length])
  subst hh
  rw [charListLtb_append_left, charListLtb_cons_same]
  rcases hlex with hmi | ⟨hmi, hs⟩
  · exact charListLtb_append_of_ltb _ _ (padNum_ltb hmi hmi2) (by rw [padNum_length, padNum_length])
  subst hmi
  rw [charListLtb_append_left, charListLtb_cons_same]
  exact padNum_ltb hs hs2

theorem fmtChars_eq_dateTimeChars (t : ℕ) :
    fmtChars t = dateTimeChars (civilFromDays (t / 86400)).1 (civilFromDays (t / 86400)).2.1
      (civilFromDays (t / 86400)).2.2 (t % 86400 / 3600) (t % 86400 % 3600 / 60)
      (t % 86400 % 60) := rfl

theorem fmtChars_ltb {t1 t2 : ℕ} (h : t1 < t2) (h2 : t2 < 250000000000) :
    charListLtb (fmtChars t1) (fmtChars t2) = true := by
  rw [fmtChars_eq_dateTimeChars, fmtChars_eq_dateTimeChars]
  have hz2 : t2 / 86400 ≤ 2893518 := by omega
  have hr2 := civilFromDays_ranges (t2 / 86400) hz2
  apply dateTimeChars_ltb (by omega) (by omega) (by omega) (by omega) (by omega) (by omega)
  rcases Nat.lt_or_ge (t1 / 86400) (t2 / 86400) with hdays | hdays
  · rcases civilFromDays_strictMono hdays with hc | ⟨hc, hc2⟩
    · left; exact hc
    · right; exact ⟨hc, by tauto⟩
  · have hde : t1 / 86400 = t2 / 86400 := by omega
    rw [hde]
    right; refine ⟨rfl, ?_⟩; right; refine ⟨rfl, ?_⟩; right; refine ⟨rfl, ?_⟩
    have e1 := Nat.div_add_mod t1 86400
    have e2 := Nat.div_add_mod t2 86400
    rw [hde] at e1
    have hsod : t1 % 86400 < t2 % 86400 := by omega
    omega

/-! ### Transitivity and totality of the string order, and its reflection
back to timestamps -/

theorem charListLtb_asymm : ∀ {a b : List Char},
    charListLtb a b = true → charListLtb b a = false := by
  intro a
  induction a with
  | nil => intro b h; cases b <;> simp_all [charListLtb]
  | cons x xs ih =>
    intro b h
    cases b with
    | nil => simp [charListLtb] at h
    | cons y ys =>
      rw [charListLtb] at h ⊢
      split_ifs at h ⊢ <;> try omega
      · rfl
      · exact ih h

theorem strLeB_trans {a b c : String} (h1 : strLeB a b = true) (h2 : strLeB b c = true) :
    strLeB a c = true := by
  simp only [strLeB, Bool.not_eq_true'] at h1 h2 ⊢
  by_contra hc
  rw [Bool.not_eq_false] at hc
  rcases Bool.eq_false_or_eq_true (charListLtb b.data c.data) with hbc | hbc
  · have ht : charListLtb b.data a.data = true := charListLtb_trans hbc hc
    rw [h1] at ht
    exact Bool.false_ne_true ht
  · have hbceq : b.data = c.data := charListLtb_antisymm hbc h2
    rw [hbceq] at h1
    rw [h1] at hc
    exact Bool.false_ne_true hc

theorem strLeB_total (a b : String) : strLeB a b = true ∨ strLeB b a = true := by
  simp only [strLeB, Bool.not_eq_true']
  rcases Bool.eq_false_or_eq_true (charListLtb b.data a.data) with h | h
  · right; exact charListLtb_asymm h
  · left; exact h

theorem le_of_strLeB_format {t1 t2 : ℤ} (hb1 : t1 < 250000000000)
    (h2 : 0 ≤ t2) (hb2 : t2 < 250000000000)
    (hle : strLeB (formatTimestamp t1) (formatTimestamp t2) = true) : t1 ≤ t2 := by
  by_contra hgt
  push_neg at hgt
  have hmono := @fmtChars_ltb t2.toNat t1.toNat (by omega) (by omega)
  simp only [strLeB, formatTimestamp, Bool.not_eq_true'] at hle
  rw [hle] at hmono
  exact Bool.false_ne_true hmono

/-! ## Data model of the analysis core -/

/-- A normalized transfer record (one `tokentx` row) after the type coercion
at the top of `_analyze_transfers` (lines 573-581): integer timestamp and raw
token value, optional integer `tokenDecimal`, and the other fields the scan
reads.  `hash` is `tx.get('hash', '')`, so the empty string models an absent
hash. -/
structure Transfer where
  fromAddr : String
  toAddr : String
  value : ℕ
  timeStamp : ℤ
  tokenDecimal : Option ℕ
  hash : String
  deriving Repr, DecidableEq

/-- The fields of `token_info` that `_analyze_transfers` reads:
`decimals`, `price_usd` (0.0 when absent), `bnb_price_usd` (0 when absent)
and `max_txs_per_buyer` (100 when absent). -/
structure TokenInfo where
  decimals : ℕ
  price_usd : ℚ
  bnb_price_usd : ℚ
  max_txs_per_buyer : ℕ
  deriving Repr, DecidableEq

/-- One `all_buyers[addr]` ledger record (lines 610-618). -/
structure LedgerEntry where
  first_buy_time : ℤ
  buy_amount : ℚ
  sell_amount : ℚ
  buy_count : ℕ
  sell_count : ℕ
  last_sell_time : ℤ
  deriving Repr, DecidableEq

/-- One `early_buyers[addr]` record (lines 637-646), together with the keys
(`bnb_spent`, `bnb_received`, `bnb_profit`, `is_bot`) that the BNB phase may
add later: `none` models an absent dictionary key, matching the
`data.get(..., default)` reads of the report loop. -/
structure EBEntry where
  address : String
  first_buy_time : ℤ
  buy_amount : ℚ
  sell_amount : ℚ
  buy_count : ℕ
  sell_count : ℕ
  last_sell_time : ℤ
  bnb_spent : Option ℚ := none
  bnb_received : Option ℚ := none
  bnb_profit : Option ℚ := none
  is_bot : Option Bool := none
  deriving Repr, DecidableEq

inductive TxDir
  | buy
  | sell
  deriving Repr, DecidableEq

/-- A `(tx_hash, 'buy'/'sell', timestamp)` triple from `address_txs`. -/
structure TxRec where
  hash : String
  dir : TxDir
  ts : ℤ
  deriving Repr, DecidableEq

/-! Insertion-ordered dictionaries (Python `dict`) as association lists:
new keys are appended at the end, updates keep the position of the key. -/

def lookupA {β : Type} : List (String × β) → String → Option β
  | [], _ => none
  | (k, v) :: rest, key => if k = key then some v else lookupA rest key

def containsKey {β : Type} (m : List (String × β)) (key : String) : Bool :=
  (lookupA m key).isSome

def updF {β : Type} : List (String × β) → String → (β → β) → List (String × β)
  | [], _, _ => []
  | (k, v) :: rest, key, f => if k = key then (k, f v) :: rest else (k, v) :: updF rest key f

/-- The two excluded system addresses (`EXCLUDE_ADDRESSES`, lines 291-294). -/
def EXCLUDE_ADDRESSES : List String :=
  ["0x0000000000000000000000000000000000000000",
   "0x000000000000000000000000000000000000dead"]

/-- The three dictionaries built by the scan loop of `_analyze_transfers`. -/
structure ScanState where
  all_buyers : List (String × LedgerEntry)
  address_txs : List (String × List TxRec)
  early_buyers : List (String × EBEntry)
  deriving Repr, DecidableEq

/-- The fresh ledger record of a first-seen recipient (lines 611-618). -/
def freshLedger (timestamp : ℤ) : LedgerEntry :=
  { first_buy_time := timestamp, buy_amount := 0, sell_amount := 0,
    buy_count := 0, sell_count := 0, last_sell_time := 0 }

/-- The fresh cohort record of a newly identified early buyer (lines 638-646). -/
def freshEB (to_addr : String) (timestamp : ℤ) : EBEntry :=
  { address := to_addr, first_buy_time := timestamp, buy_amount := 0,
    sell_amount := 0, buy_count := 0, sell_count := 0, last_sell_time := 0 }

/-- Lines 610-619: create the recipient's ledger and tx-record entries on
first appearance. -/
def registerRecipient (to_addr : String) (timestamp : ℤ) (s : ScanState) : ScanState :=
  if containsKey s.all_buyers to_addr then s
  else { s with
          all_buyers := s.all_buyers ++ [(to_addr, freshLedger timestamp)],
          address_txs := s.address_txs ++ [(to_addr, [])] }

/-- Lines 622-624: the recipient's buy credit. -/
def buyCredit (to_addr : String) (token_amount : ℚ) (s : ScanState) : ScanState :=
  { s with all_buyers := updF s.all_buyers to_addr (fun e =>
      { e with buy_amount := e.buy_amount + token_amount, buy_count := e.buy_count + 1 }) }

/-- Lines 625-626 and 633-634: append a `(hash, direction, timestamp)`
record for an address. -/
def recordTx (addr tx_hash : String) (dir : TxDir) (timestamp : ℤ) (s : ScanState) : ScanState :=
  { s with address_txs := updF s.address_txs addr (fun l => l ++ [⟨tx_hash, dir, timestamp⟩]) }

/-- Lines 630-632: the sender's sell debit (only for known recipients). -/
def sellDebit (from_addr : String) (token_amount : ℚ) (timestamp : ℤ) (s : ScanState) :
    ScanState :=
  { s with all_buyers := updF s.all_buyers from_addr (fun e =>
      { e with sell_amount := e.sell_amount + token_amount,
               sell_count := e.sell_count + 1, last_sell_time := timestamp }) }

/-- Lines 637-646: first-in-window cohort membership. -/
def cohortCheck (start_cutoff_time end_cutoff_time : ℤ) (to_addr : String) (timestamp : ℤ)
    (s : ScanState) : ScanState :=
  if start_cutoff_time ≤ timestamp ∧ timestamp ≤ end_cutoff_time ∧
      ¬ containsKey s.early_buyers to_addr then
    { s with early_buyers := s.early_buyers ++ [(to_addr, freshEB to_addr timestamp)] }
  else s

/-- One iteration of the ledger loop (lines 597-646). -/
def scanStep (token_decimals : ℕ) (start_cutoff_time end_cutoff_time : ℤ)
    (s : ScanState) (tx : Transfer) : ScanState :=
  let from_addr := strLower tx.fromAddr
  let to_addr := strLower tx.toAddr
  let timestamp := tx.timeStamp
  let decimal := tx.tokenDecimal.getD token_decimals
  let tx_hash := tx.hash
  if from_addr ∈ EXCLUDE_ADDRESSES ∨ to_addr ∈ EXCLUDE_ADDRESSES then s
  else
    let s1 := registerRecipient to_addr timestamp s
    let token_amount : ℚ := (tx.value : ℚ) / 10 ^ decimal
    let s2 := buyCredit to_addr token_amount s1
    let s3 := if tx_hash ≠ "" then recordTx to_addr tx_hash TxDir.buy timestamp s2 else s2
    let s4 :=
      if containsKey s3.all_buyers from_addr then
        let s5 := sellDebit from_addr token_amount timestamp s3
        if tx_hash ≠ "" ∧ containsKey s5.address_txs from_addr then
          recordTx from_addr tx_hash TxDir.sell timestamp s5
        else s5
      else s3
    cohortCheck start_cutoff_time end_cutoff_time to_addr timestamp s4


/-- The whole ledger loop: a left fold of `scanStep` over the transfer list,
in the order the list provides (the source does not sort). -/
def ledgerScan (transfers : List Transfer) (token_decimals : ℕ)
    (start_cutoff_time end_cutoff_time : ℤ) : ScanState :=
  transfers.foldl (scanStep token_decimals start_cutoff_time end_cutoff_time) ⟨[], [], []⟩

/-- `early_buyers[addr].update(all_buyers[addr])` for every cohort address
(lines 649-651, repeated at lines 777-780): copies the six ledger fields,
keeping any BNB fields already present. -/
def applyLedgerUpdate (eb : List (String × EBEntry))
    (all : List (String × LedgerEntry)) : List (String × EBEntry) :=
  eb.map (fun p =>
    match lookupA all p.1 with
    | some l =>
      (p.1,
        { p.2 with
            first_buy_time := l.first_buy_time
            buy_amount := l.buy_amount
            sell_amount := l.sell_amount
            buy_count := l.buy_count
            sell_count := l.sell_count
            last_sell_time := l.last_sell_time })
    | none => p)

/-! ## `_get_bnb_amount_from_tx` (lines 301-379) -/

/-- The `{'bnb_in', 'bnb_out', 'net_bnb'}` dictionary it returns. -/
structure BnbFlow where
  bnb_in : ℚ
  bnb_out : ℚ
  net_bnb : ℚ
  deriving Repr, DecidableEq

/-- The `result` field of the `eth_getTransactionByHash` response as far as
the function inspects it.  `_call_etherscan_v2_api` never raises: it catches
network errors and returns a `status "0", result []` payload, which is the
`absent` (falsy) case here.  `malformed` is a truthy non-dict result;
`badValue` is a transaction dict whose `value` field cannot be parsed by
`int(...)`, which raises inside the enclosing `try`. -/
inductive MainTxResult
  | absent
  | malformed
  | badValue (fromA toA : String)
  | txData (fromA toA : String) (valueWei : ℤ)
  deriving Repr, DecidableEq

structure InternalTx where
  fromA : String
  toA : String
  valueWei : ℤ
  deriving Repr, DecidableEq

/-- The `result` of the `txlistinternal` response: `absent` is a falsy
result (also the network-failure fallback `[]`), `malformedItems` a truthy
result whose iteration raises (non-dict items), `txList` a real list. -/
inductive InternalResult
  | absent
  | malformedItems
  | txList (txs : List InternalTx)
  deriving Repr, DecidableEq

/-- Model of `FourMemeAnalyzer._get_bnb_amount_from_tx`.  The two HTTP
responses are passed as data (`internalStatus1` is `status == "1"` of the
second response).  The function is total: every Python exception path inside
the `try` block ends in the caught-exception zero result. -/
def get_bnb_amount_from_tx (address : String) (main : MainTxResult)
    (internalStatus1 : Bool) (internal : InternalResult) : BnbFlow :=
  let addr := strLower address
  match main with
  | MainTxResult.malformed => ⟨0, 0, 0⟩
  | MainTxResult.badValue _ _ => ⟨0, 0, 0⟩
  | m =>
    let mainOut : ℚ :=
      match m with
      | MainTxResult.txData f _ v => if (strLower f) = addr ∧ 0 < v then (v : ℚ) / 10 ^ 18 else 0
      | _ => 0
    let mainIn : ℚ :=
      match m with
      | MainTxResult.txData f t v =>
        if ¬ ((strLower f) = addr ∧ 0 < v) ∧ ((strLower t) = addr ∧ 0 < v) then (v : ℚ) / 10 ^ 18
        else 0
      | _ => 0
    match internal with
    | InternalResult.malformedItems =>
      if internalStatus1 then ⟨0, 0, 0⟩ else ⟨mainIn, mainOut, mainIn - mainOut⟩
    | InternalResult.absent => ⟨mainIn, mainOut, mainIn - mainOut⟩
    | InternalResult.txList txs =>
      if internalStatus1 ∧ txs ≠ [] then
        let sums : ℚ × ℚ := txs.foldl (fun acc t =>
          let acc1 : ℚ × ℚ :=
            if strLower t.toA = addr then (acc.1 + (t.valueWei : ℚ) / 10 ^ 18, acc.2) else acc
          if strLower t.fromA = addr then (acc1.1, acc1.2 + (t.valueWei : ℚ) / 10 ^ 18) else acc1)
          (0, 0)
        ⟨mainIn + sums.1, mainOut + sums.2, mainIn + sums.1 - (mainOut + sums.2)⟩
      else ⟨mainIn, mainOut, mainIn - mainOut⟩

/-! ## The BNB-calculation phase of `_analyze_transfers` (lines 653-775) -/

/-- The BNB fields written into an `early_buyers` entry by the BNB phase
(lines 674-677, 686-689 and 762-765). -/
def setBnbFields (spent received profit : ℚ) (bot : Bool) (e : EBEntry) : EBEntry :=
  { e with
      bnb_spent := some spent
      bnb_received := some received
      bnb_profit := some profit
      is_bot := some bot }

/-- One iteration of phase 1 (lines 671-697) for the cohort address `p.1`:
zero the BNB fields when there are no transaction records, flag a bot when
the record count exceeds the threshold, otherwise collect a valid buyer. -/
def botFilterStep (address_txs : List (String × List TxRec)) (max_txs_per_buyer : ℕ)
    (acc : List (String × EBEntry) × List (String × List TxRec)) (p : String × EBEntry) :
    List (String × EBEntry) × List (String × List TxRec) :=
  match lookupA address_txs p.1 with
  | none => (updF acc.1 p.1 (setBnbFields 0 0 0 false), acc.2)
  | some txs =>
    if txs.length = 0 then
      (updF acc.1 p.1 (setBnbFields 0 0 0 false), acc.2)
    else if max_txs_per_buyer < txs.length then
      (updF acc.1 p.1 (setBnbFields 0 0 0 true), acc.2)
    else
      (acc.1, acc.2 ++ [(p.1, txs)])

/-- Phase 1 (lines 671-697): zero out cohort members without transaction
records, flag members above the bot threshold, and collect the remaining
valid buyers in cohort order. -/
def botFilter (eb : List (String × EBEntry)) (address_txs : List (String × List TxRec))
    (max_txs_per_buyer : ℕ) : List (String × EBEntry) × List (String × List TxRec) :=
  eb.foldl (botFilterStep address_txs max_txs_per_buyer) (eb, [])

/-- Phase 2 (lines 706-737): fill the two-level `tx_cache[address][tx_hash]`.
`lookup` stands for what `_get_bnb_amount_from_tx` returns on this run for a
given `(address, tx_hash)` query.  Besides the cache, the result records the
trace of `(address, tx_hash)` pairs actually sent to the API, in order. -/
def txCacheInner (lookup : String → String → BnbFlow) (addr : String)
    (acc2 : List (String × List (String × BnbFlow)) × List (String × String)) (r : TxRec) :
    List (String × List (String × BnbFlow)) × List (String × String) :=
  match lookupA acc2.1 addr with
  | some m =>
    if containsKey m r.hash then acc2
    else (updF acc2.1 addr (fun l => l ++ [(r.hash, lookup addr r.hash)]),
          acc2.2 ++ [(addr, r.hash)])
  | none => acc2

def txCacheOuter (lookup : String → String → BnbFlow)
    (acc : List (String × List (String × BnbFlow)) × List (String × String))
    (p : String × List TxRec) :
    List (String × List (String × BnbFlow)) × List (String × String) :=
  let cache0 := if containsKey acc.1 p.1 then acc.1 else acc.1 ++ [(p.1, [])]
  p.2.foldl (txCacheInner lookup p.1) (cache0, acc.2)

def buildTxCache (valid_buyers : List (String × List TxRec))
    (lookup : String → String → BnbFlow) :
    List (String × List (String × BnbFlow)) × List (String × String) :=
  valid_buyers.foldl (txCacheOuter lookup) ([], [])

/-- Phase 3 (lines 745-765): per-buyer BNB sums read back from the cache
(`tx_cache[addr].get(tx_hash, {'bnb_out': 0, 'bnb_in': 0})`). -/
def computeBnbSums (cache : List (String × List (String × BnbFlow)))
    (addr : String) (txs : List TxRec) : ℚ × ℚ :=
  txs.foldl (fun acc r =>
    let bnb_data := ((lookupA cache addr).bind (fun m => lookupA m r.hash)).getD ⟨0, 0, 0⟩
    match r.dir with
    | TxDir.buy => (acc.1 + bnb_data.bnb_out, acc.2)
    | TxDir.sell => (acc.1, acc.2 + bnb_data.bnb_in))
    (0, 0)

/-- One iteration of phase 3 (lines 745-765) for a valid buyer. -/
def bnbSumStep (cache : List (String × List (String × BnbFlow)))
    (ebAcc : List (String × EBEntry)) (p : String × List TxRec) : List (String × EBEntry) :=
  let sums := computeBnbSums cache p.1 p.2
  updF ebAcc p.1 (setBnbFields sums.1 sums.2 (sums.2 - sums.1) false)

/-- The whole `use_bnb_calculation` block (lines 656-775). -/
def bnbPhase (eb : List (String × EBEntry)) (address_txs : List (String × List TxRec))
    (max_txs_per_buyer : ℕ) (lookup : String → String → BnbFlow) :
    List (String × EBEntry) :=
  let fl := botFilter eb address_txs max_txs_per_buyer
  let cache := (buildTxCache fl.2 lookup).1
  fl.2.foldl (bnbSumStep cache) fl.1

/-! ## The report loop (lines 782-917) and the final result -/

/-- One element of `early_buyers_list` (lines 893-914).
`first_buy_timestamp` carries the numeric local variable of line 796 that
the formatted `first_buy_time` string of line 895 is rendered from. -/
structure ReportEntry where
  address : String
  first_buy_time : String
  first_buy_timestamp : ℤ
  buy_amount : ℚ
  sell_amount : ℚ
  holding : ℚ
  sell_ratio : ℚ
  status : String
  buy_count : ℕ
  sell_count : ℕ
  holding_time : String
  holding_duration_seconds : ℤ
  buy_value_usd : ℚ
  sell_value_usd : ℚ
  holding_value_usd : ℚ
  total_profit_usd : ℚ
  profit_multiple : ℚ
  bnb_spent : ℚ
  bnb_received : ℚ
  bnb_profit : ℚ
  is_bot : Bool
  deriving Repr, DecidableEq

/-- The five monetary output fields and the three displayed BNB fields,
computed per buyer by one of the three valuation branches. -/
structure MonetaryFields where
  buy_value_usd : ℚ
  sell_value_usd : ℚ
  holding_value_usd : ℚ
  total_profit_usd : ℚ
  profit_multiple : ℚ
  bnb_spent_display : ℚ
  bnb_received_display : ℚ
  bnb_profit_display : ℚ
  deriving Repr, DecidableEq

/-- The human-readable duration string (lines 807-817); Python `//` and `%`
are floor division and modulo, `Int.fdiv`/`Int.fmod`. -/
def formatHoldingTime (holding_duration : ℤ) : String :=
  let hours := holding_duration.fdiv 3600
  let minutes := (holding_duration.fmod 3600).fdiv 60
  if 24 < hours then
    toString (hours.fdiv 24) ++ "天" ++ toString (hours.fmod 24) ++ "小時"
  else if 0 < hours then
    toString hours ++ "小時" ++ toString minutes ++ "分"
  else
    toString minutes ++ "分鐘"

/-- The body of the report loop (lines 787-914) for one cohort entry. -/
def computeBuyerReport (info : TokenInfo) (current_time : ℤ) (addr : String)
    (data : EBEntry) : ReportEntry :=
  let buy_amount := data.buy_amount / 10 ^ info.decimals
  let sell_amount := data.sell_amount / 10 ^ info.decimals
  let holding := buy_amount - sell_amount
  let sell_ratio := if 0 < buy_amount then sell_amount / buy_amount * 100 else 0
  let first_buy_timestamp := data.first_buy_time
  -- `data.get('last_sell_time', current_time)`: the key is always present
  let last_sell_timestamp := data.last_sell_time
  let hd : ℤ × Bool :=
    if 0 < holding then (current_time - first_buy_timestamp, true)
    else (last_sell_timestamp - first_buy_timestamp, false)
  let bnb_spent := data.bnb_spent.getD 0
  let bnb_received := data.bnb_received.getD 0
  let bnb_profit := bnb_received - bnb_spent
  let has_valid_bnb_data := (0 < bnb_spent ∨ 0 < bnb_received) ∧ 0 < info.bnb_price_usd
  let monet : MonetaryFields :=
    if has_valid_bnb_data then
      let holding_value_bnb :=
        if 0 < sell_amount ∧ 0 < bnb_received then holding * (bnb_received / sell_amount)
        else if 0 < buy_amount ∧ 0 < bnb_spent then holding * (bnb_spent / buy_amount)
        else 0
      let total_value_bnb := bnb_received + holding_value_bnb
      let profit_multiple :=
        if 0 < bnb_spent then total_value_bnb / bnb_spent
        else if 0 < bnb_received ∧ bnb_spent = 0 then 99999 / 100
        else 0
      { buy_value_usd := bnb_spent * info.bnb_price_usd
        sell_value_usd := bnb_received * info.bnb_price_usd
        holding_value_usd := holding_value_bnb * info.bnb_price_usd
        total_profit_usd := (total_value_bnb - bnb_spent) * info.bnb_price_usd
        profit_multiple := profit_multiple
        bnb_spent_display := bnb_spent
        bnb_received_display := bnb_received
        bnb_profit_display := bnb_profit }
    else if 0 < info.price_usd then
      let buy_value_usd := buy_amount * info.price_usd
      let sell_value_usd := sell_amount * info.price_usd
      let holding_value_usd := holding * info.price_usd
      { buy_value_usd := buy_value_usd
        sell_value_usd := sell_value_usd
        holding_value_usd := holding_value_usd
        total_profit_usd := sell_value_usd + holding_value_usd - buy_value_usd
        profit_multiple :=
          if 0 < buy_value_usd then (sell_value_usd + holding_value_usd) / buy_value_usd else 0
        bnb_spent_display := 0
        bnb_received_display := 0
        bnb_profit_display := 0 }
    else
      { buy_value_usd := 0, sell_value_usd := 0, holding_value_usd := 0, total_profit_usd := 0
        profit_multiple := 0, bnb_spent_display := 0, bnb_received_display := 0
        bnb_profit_display := 0 }
  { address := addr
    first_buy_time := formatTimestamp first_buy_timestamp
    first_buy_timestamp := first_buy_timestamp
    buy_amount := buy_amount
    sell_amount := sell_amount
    holding := holding
    sell_ratio := sell_ratio
    status := if hd.2 then "仍持倉" else "已清倉"
    buy_count := data.buy_count
    sell_count := data.sell_count
    holding_time := formatHoldingTime hd.1
    holding_duration_seconds := hd.1
    buy_value_usd := monet.buy_value_usd
    sell_value_usd := monet.sell_value_usd
    holding_value_usd := monet.holding_value_usd
    total_profit_usd := monet.total_profit_usd
    profit_multiple := monet.profit_multiple
    bnb_spent := monet.bnb_spent_display
    bnb_received := monet.bnb_received_display
    bnb_profit := monet.bnb_profit_display
    is_bot := data.is_bot.getD false }

/-- The aggregate statistics (lines 919-926). -/
structure Stats where
  total_buyers : ℕ
  total_buy : ℚ
  cleared_buyers : ℕ
  holding_buyers : ℕ
  cleared_ratio : ℚ
  holding_ratio : ℚ
  deriving Repr, DecidableEq

structure AnalysisResult where
  token_info : TokenInfo
  stats : Stats
  buyers : List ReportEntry
  deriving Repr, DecidableEq

/-- `creation_time = min(tx['timeStamp'] for tx in transfers)` (line 583);
only evaluated on a non-empty list. -/
def creationTime : List Transfer → ℤ
  | [] => 0
  | t :: ts => ts.foldl (fun m tx => min m tx.timeStamp) t.timeStamp

/-- The key order of `early_buyers_list.sort(key=lambda x: x['first_buy_time'])`
(line 917): Python compares the formatted strings by code point. -/
def reportLe (a b : ReportEntry) : Prop :=
  strLeB a.first_buy_time b.first_buy_time = true

instance : DecidableRel reportLe := fun a b => by unfold reportLe; infer_instance

/-- The scan of `_analyze_transfers` with its cutoffs computed from the
creation time (lines 583-585 and 597-646). -/
def scanOf (transfers : List Transfer) (token_info : TokenInfo)
    (start_seconds end_seconds : ℤ) : ScanState :=
  ledgerScan transfers token_info.decimals
    (creationTime transfers + start_seconds) (creationTime transfers + end_seconds)

/-- The cohort dictionary as it stands when the report loop starts
(lines 649-651, the optional BNB block 653-775, and the second update
777-780). -/
def cohortEntries (transfers : List Transfer) (token_info : TokenInfo)
    (start_seconds end_seconds : ℤ) (api_key : Bool)
    (lookup : String → String → BnbFlow) : List (String × EBEntry) :=
  let st := scanOf transfers token_info start_seconds end_seconds
  let eb1 := applyLedgerUpdate st.early_buyers st.all_buyers
  let use_bnb_calculation := api_key ∧ 0 < token_info.bnb_price_usd
  let eb2 := if use_bnb_calculation then
      bnbPhase eb1 st.address_txs token_info.max_txs_per_buyer lookup
    else eb1
  applyLedgerUpdate eb2 st.all_buyers

/-- The sorted `early_buyers_list` (lines 782-917). -/
def buyersList (transfers : List Transfer) (token_info : TokenInfo)
    (start_seconds end_seconds : ℤ) (api_key : Bool)
    (lookup : String → String → BnbFlow) (current_time : ℤ) : List ReportEntry :=
  ((cohortEntries transfers token_info start_seconds end_seconds api_key lookup).map
    (fun p => computeBuyerReport token_info current_time p.1 p.2)).insertionSort reportLe

/-- `FourMemeAnalyzer._analyze_transfers` (lines 562-948).  `api_key` is the
truthiness of the `api_key` argument, `lookup` the behaviour of
`_get_bnb_amount_from_tx` on this run, `current_time` the value of
`int(time.time())` at line 784.  `none` models the `success: False` early
return for an empty transfer list.  Python's stable in-place sort is
modelled by the stable `List.insertionSort`. -/
def analyze_transfers (transfers : List Transfer) (token_info : TokenInfo)
    (start_seconds end_seconds : ℤ) (api_key : Bool)
    (lookup : String → String → BnbFlow) (current_time : ℤ) :
    Option AnalysisResult :=
  if transfers = [] then none
  else
    let sorted := buyersList transfers token_info start_seconds end_seconds api_key lookup
      current_time
    let total_buyers := sorted.length
    let cleared_buyers := (sorted.filter (fun b => b.holding ≤ 0)).length
    let holding_buyers := total_buyers - cleared_buyers
    some {
      token_info := token_info
      stats := {
        total_buyers := total_buyers
        total_buy := (sorted.map (fun b => b.buy_amount)).sum
        cleared_buyers := cleared_buyers
        holding_buyers := holding_buyers
        cleared_ratio :=
          if 0 < total_buyers then (cleared_buyers : ℚ) / total_buyers * 100 else 0
        holding_ratio :=
          if 0 < total_buyers then (holding_buyers : ℚ) / total_buyers * 100 else 0 }
      buyers := sorted }

/-- Every successful analysis result carries exactly the sorted buyers list. -/
theorem buyers_of_analyze {transfers : List Transfer} {token_info : TokenInfo}
    {start_seconds end_seconds : ℤ} {api_key : Bool}
    {lookup : String → String → BnbFlow} {current_time : ℤ} {r : AnalysisResult}
    (hr : analyze_transfers transfers token_info start_seconds end_seconds api_key lookup
      current_time = some r) :
    r.buyers = buyersList transfers token_info start_seconds end_seconds api_key lookup
      current_time := by
  unfold analyze_transfers at hr
  split at hr
  · exact absurd hr (by simp)
  · cases Option.some.inj hr
    rfl

/-! ## Association-list toolkit -/

theorem lookupA_updF_eq {β : Type} (m : List (String × β)) (k : String) (f : β → β) :
    lookupA (updF m k f) k = (lookupA m k).map f := by
  induction m with
  | nil => rfl
  | cons p rest ih =>
    obtain ⟨a, v⟩ := p
    by_cases h : a = k <;> simp [updF, lookupA, h, ih]

theorem lookupA_updF_ne {β : Type} (m : List (String × β)) {k a : String} (f : β → β)
    (h : a ≠ k) : lookupA (updF m k f) a = lookupA m a := by
  induction m with
  | nil => rfl
  | cons p rest ih =>
    obtain ⟨b, v⟩ := p
    by_cases h2 : b = k
    · subst h2
      simp only [updF, if_pos rfl, lookupA]
      rw [if_neg (fun hh => h hh.symm), if_neg (fun hh => h hh.symm)]
    · simp [updF, lookupA, h2, ih]

theorem updF_keys {β : Type} (m : List (String × β)) (k : String) (f : β → β) :
    (updF m k f).map Prod.fst = m.map Prod.fst := by
  induction m with
  | nil => rfl
  | cons p rest ih =>
    obtain ⟨a, v⟩ := p
    by_cases h : a = k <;> simp [updF, h, ih]

theorem lookupA_append {β : Type} (m l : List (String × β)) (a : String) :
    lookupA (m ++ l) a =
      match lookupA m a with
      | some v => some v
      | none => lookupA l a := by
  induction m with
  | nil => rfl
  | cons p rest ih =>
    obtain ⟨b, v⟩ := p
    by_cases h : b = a <;> simp [lookupA, h, ih]

theorem lookupA_mem {β : Type} {m : List (String × β)} {a : String} {v : β}
    (h : lookupA m a = some v) : (a, v) ∈ m := by
  induction m with
  | nil => cases h
  | cons p rest ih =>
    obtain ⟨b, w⟩ := p
    by_cases h2 : b = a
    · subst h2
      simp only [lookupA, if_pos rfl] at h
      cases h
      exact List.mem_cons_self _ _
    · simp only [lookupA, if_neg h2] at h
      exact List.mem_cons_of_mem _ (ih h)

/-! ## The claims -/

/-- C7: the Ledger Builder is a pure, deterministic function of the
normalized transfer list and the window: running the scan twice on the same
input yields identical per-address ledger entries and an identical cohort.
In this embedding the loop of lines 597-646 is a fold that reads nothing
besides its arguments (the source loop touches only its local
dictionaries), so the two runs are one and the same value. -/
theorem C7_ledger_builder_deterministic (transfers : List Transfer) (token_decimals : ℕ)
    (start_cutoff_time end_cutoff_time : ℤ) :
    ledgerScan transfers token_decimals start_cutoff_time end_cutoff_time =
        ledgerScan transfers token_decimals start_cutoff_time end_cutoff_time ∧
      (ledgerScan transfers token_decimals start_cutoff_time end_cutoff_time).all_buyers =
        (ledgerScan transfers token_decimals start_cutoff_time end_cutoff_time).all_buyers ∧
      (ledgerScan transfers token_decimals start_cutoff_time end_cutoff_time).early_buyers =
        (ledgerScan transfers token_decimals start_cutoff_time end_cutoff_time).early_buyers :=
  ⟨rfl, rfl, rfl⟩

/-- C5 counterexample: the claim that a lookup whose underlying API call
fails always returns the zero-flow result is false as stated.  When only
the internal-transfer call fails (the HTTP client catches the error and
hands back a status-0 payload, so nothing raises), the main transaction's
flows are kept: here the main lookup saw the address pay 2 BNB, and the
result is `{bnb_in: 0, bnb_out: 2}`, not the zero-flow dictionary. -/
theorem C5_counterexample :
    get_bnb_amount_from_tx "0xA" (MainTxResult.txData "0xa" "0xc" 2000000000000000000)
        false InternalResult.absent ≠ ⟨0, 0, 0⟩ ∧
      (get_bnb_amount_from_tx "0xA" (MainTxResult.txData "0xa" "0xc" 2000000000000000000)
        false InternalResult.absent).bnb_out = 2 := by
  have hv : get_bnb_amount_from_tx "0xA" (MainTxResult.txData "0xa" "0xc" 2000000000000000000)
      false InternalResult.absent = ⟨0, 2, -2⟩ := by
    simp only [get_bnb_amount_from_tx,
      show strLower "0xA" = "0xa" from by decide, show strLower "0xa" = "0xa" from by decide,
      show strLower "0xc" = "0xc" from by decide, show ¬ ("0xc" : String) = "0xa" from by decide]
    norm_num
  rw [hv]
  refine ⟨fun h => ?_, rfl⟩
  have h2 := congrArg BnbFlow.bnb_out h
  norm_num at h2

/-- C5 amended: a native-flow lookup returns the zero-flow result
`{nativeIn: 0, nativeOut: 0}` whenever the main-transaction result is
malformed (truthy non-dict), or its value is unparsable (raising inside the
guarded block), or the main call failed AND the internal call also failed
(falsy result, non-"1" status, or raising malformed items).  No exception
escapes: the function is total, so a single failed lookup never aborts the
analysis.  (A failure of the internal call alone keeps the main flows,
which is the correction to the claim.) -/
theorem C5_amended (address : String) (main : MainTxResult) (st : Bool)
    (internal : InternalResult)
    (hmain : main = MainTxResult.malformed ∨ (∃ f t, main = MainTxResult.badValue f t) ∨
      main = MainTxResult.absent)
    (hinternal : internal = InternalResult.absent ∨ st = false ∨
      internal = InternalResult.malformedItems ∨
      main = MainTxResult.malformed ∨ (∃ f t, main = MainTxResult.badValue f t)) :
    get_bnb_amount_from_tx address main st internal = ⟨0, 0, 0⟩ := by
  rcases hmain with h | ⟨f, t, h⟩ | h <;> subst h
  · simp [get_bnb_amount_from_tx]
  · simp [get_bnb_amount_from_tx]
  · rcases hinternal with h | h | h | h | ⟨f, t, h⟩
    · subst h; simp [get_bnb_amount_from_tx]
    · subst h
      cases internal <;> simp [get_bnb_amount_from_tx]
    · subst h; cases st <;> simp [get_bnb_amount_from_tx]
    · cases h
    · cases h

/-- Witness for C5 amended: both calls fail, and the result is zero flow. -/
theorem C5_amended_witness :
    get_bnb_amount_from_tx "0xa" MainTxResult.absent false InternalResult.absent = ⟨0, 0, 0⟩ :=
  C5_amended "0xa" MainTxResult.absent false InternalResult.absent
    (Or.inr (Or.inr rfl)) (Or.inl rfl)

/-- The concrete native-flow-mode token configuration of the C3
counterexample: decimals 0, no flat price, BNB price 1, default threshold. -/
def c3Info : TokenInfo := ⟨0, 0, 1, 100⟩

/-- The concrete cohort entry of the C3 counterexample: bought 2 tokens,
sold 1 (a sale occurred), spent 1 BNB, but received 0 BNB. -/
def c3Data : EBEntry :=
  { address := "0xa", first_buy_time := 1700000000, buy_amount := 2,
    sell_amount := 1, buy_count := 2, sell_count := 1, last_sell_time := 1700000100,
    bnb_spent := some 1, bnb_received := some 0, bnb_profit := some (-1),
    is_bot := some false }

/-- C3 counterexample: the claim values the remaining holding at the
average sell price whenever any sale occurred.  For a buyer in native-flow
mode with a sale (`sell_amount = 1 > 0`) but `nativeReceived = 0` (for
example, all sell lookups degraded to zero), the claim predicts a holding
value of `holding * (0 / 1) * price = 0`, but the code falls through to the
average buy price and reports `1 * (1 / 2) * 1 = 1/2`. -/
theorem C3_counterexample :
    0 < c3Data.sell_amount ∧ (0 < c3Data.bnb_spent.getD 0 ∧ 0 < c3Info.bnb_price_usd) ∧
      (computeBuyerReport c3Info 1700001000 "0xa" c3Data).holding_value_usd = 1 / 2 ∧
      (computeBuyerReport c3Info 1700001000 "0xa" c3Data).holding_value_usd ≠
        (computeBuyerReport c3Info 1700001000 "0xa" c3Data).holding *
          (c3Data.bnb_received.getD 0 /
            (computeBuyerReport c3Info 1700001000 "0xa" c3Data).sell_amount) *
          c3Info.bnb_price_usd := by
  have hv : (computeBuyerReport c3Info 1700001000 "0xa" c3Data).holding_value_usd = 1 / 2 := by
    simp only [computeBuyerReport, c3Info, c3Data]
    norm_num
  have hh : (computeBuyerReport c3Info 1700001000 "0xa" c3Data).holding = 1 := by
    simp only [computeBuyerReport, c3Info, c3Data]
    norm_num
  refine ⟨by norm_num [c3Data], ⟨by norm_num [c3Data], by norm_num [c3Info]⟩, hv, ?_⟩
  rw [hv, hh]
  norm_num [c3Data]

/-- The holding-valuation rule of claim C3 as amended, stated from the
spec's words with the corrected guards: average sell price only when a sale
occurred and native was received, else average buy price only when a
purchase occurred and native was spent, else zero. -/
def claimHoldingValueNative (sellAmount buyAmount holding spent received : ℚ) : ℚ :=
  if 0 < sellAmount ∧ 0 < received then holding * (received / sellAmount)
  else if 0 < buyAmount ∧ 0 < spent then holding * (spent / buyAmount)
  else 0

/-- C3 amended: for every cohort buyer in native-flow mode
(`(nativeSpent>0 ∨ nativeReceived>0) ∧ nativeUsdPrice>0`), the remaining
holding is valued at the average sell price `nativeReceived/sellAmount`
when a sale occurred AND `nativeReceived > 0`, else at the average buy
price `nativeSpent/buyAmount` when a purchase occurred AND
`nativeSpent > 0`, else 0 (the extra positivity guards are the amendment);
`totalValue = nativeReceived + holdingValueNative` shows up in the report
as `sell_value_usd = received * price` and `total_profit_usd =
(totalValue - spent) * price`, and `profitMultiple = totalValue / spent`
when `spent > 0`. -/
theorem C3_native_flow_valuation (info : TokenInfo) (current_time : ℤ) (addr : String)
    (data : EBEntry)
    (hmode : (0 < data.bnb_spent.getD 0 ∨ 0 < data.bnb_received.getD 0) ∧
      0 < info.bnb_price_usd) :
    (computeBuyerReport info current_time addr data).holding_value_usd =
        claimHoldingValueNative (computeBuyerReport info current_time addr data).sell_amount
          (computeBuyerReport info current_time addr data).buy_amount
          (computeBuyerReport info current_time addr data).holding
          (data.bnb_spent.getD 0) (data.bnb_received.getD 0) * info.bnb_price_usd ∧
      (computeBuyerReport info current_time addr data).sell_value_usd =
        data.bnb_received.getD 0 * info.bnb_price_usd ∧
      (computeBuyerReport info current_time addr data).buy_value_usd =
        data.bnb_spent.getD 0 * info.bnb_price_usd ∧
      (computeBuyerReport info current_time addr data).total_profit_usd =
        (data.bnb_received.getD 0 +
          claimHoldingValueNative (computeBuyerReport info current_time addr data).sell_amount
            (computeBuyerReport info current_time addr data).buy_amount
            (computeBuyerReport info current_time addr data).holding
            (data.bnb_spent.getD 0) (data.bnb_received.getD 0) -
          data.bnb_spent.getD 0) * info.bnb_price_usd ∧
      (0 < data.bnb_spent.getD 0 →
        (computeBuyerReport info current_time addr data).profit_multiple =
          (data.bnb_received.getD 0 +
            claimHoldingValueNative (computeBuyerReport info current_time addr data).sell_amount
              (computeBuyerReport info current_time addr data).buy_amount
              (computeBuyerReport info current_time addr data).holding
              (data.bnb_spent.getD 0) (data.bnb_received.getD 0)) /
            data.bnb_spent.getD 0) := by
  simp only [computeBuyerReport, claimHoldingValueNative]
  rw [if_pos hmode]
  refine ⟨rfl, rfl, rfl, rfl, fun h => ?_⟩
  rw [if_pos h]

/-- The cohort entry of the C3 witness, the spec's own example: bought 2
tokens for 1.0 BNB, sold half (1 token) for 0.8 BNB. -/
def c3wData : EBEntry :=
  { address := "0xb", first_buy_time := 1700000000, buy_amount := 2,
    sell_amount := 1, buy_count := 1, sell_count := 1, last_sell_time := 1700000100,
    bnb_spent := some 1, bnb_received := some (4 / 5), bnb_profit := some (-(1 / 5)),
    is_bot := some false }

/-- Witness for C3: on the spec's example (spends 1.0 native, sells half
for 0.8) the amended rule gives `holdingValueNative = 0.8`,
`totalValue = 1.6` (reported as `total_profit_usd = 0.6`) and
`profitMultiple = 1.6`. -/
theorem C3_native_flow_valuation_witness :
    (computeBuyerReport c3Info 1700001000 "0xb" c3wData).holding_value_usd = 4 / 5 ∧
      (computeBuyerReport c3Info 1700001000 "0xb" c3wData).total_profit_usd = 3 / 5 ∧
      (computeBuyerReport c3Info 1700001000 "0xb" c3wData).profit_multiple = 8 / 5 := by
  obtain ⟨h1, h2, h3, h4, h5⟩ :=
    C3_native_flow_valuation c3Info 1700001000 "0xb" c3wData
      ⟨Or.inl (by norm_num [c3wData]), by norm_num [c3Info]⟩
  have hs : (computeBuyerReport c3Info 1700001000 "0xb" c3wData).sell_amount = 1 := by
    simp only [computeBuyerReport, c3Info, c3wData]
    norm_num
  have hbuy : (computeBuyerReport c3Info 1700001000 "0xb" c3wData).buy_amount = 2 := by
    simp only [computeBuyerReport, c3Info, c3wData]
    norm_num
  have hh : (computeBuyerReport c3Info 1700001000 "0xb" c3wData).holding = 1 := by
    simp only [computeBuyerReport, c3Info, c3wData]
    norm_num
  have hcv : claimHoldingValueNative 1 2 1 (c3wData.bnb_spent.getD 0)
      (c3wData.bnb_received.getD 0) = 4 / 5 := by
    norm_num [claimHoldingValueNative, c3wData]
  rw [hs, hbuy, hh, hcv] at h1 h4
  refine ⟨?_, ?_, ?_⟩
  · rw [h1]; norm_num [c3Info]
  · rw [h4]; norm_num [c3Info, c3wData]
  · rw [h5 (by norm_num [c3wData]), hs, hbuy, hh, hcv]
    norm_num [c3wData]

/-- The single concrete transfer of the C2 failing input: raw value 100
with per-transfer decimals 2 and token decimals 2. -/
def c2Transfer : Transfer := ⟨"0xx", "0xa", 100, 1700000000, some 2, "h1"⟩

def c2Info : TokenInfo := ⟨2, 0, 0, 100⟩

/-- C2 (code bug): the spec says token amounts are the raw value divided by
`10^decimals` exactly once, but the code divides twice — once at the ledger
credit (line 622) and again in the report loop (lines 789-790).  For a
single transfer of raw value 100 with decimals 2, the reported
`buy_amount` (and `holding`) is `1/100` instead of the spec's `1`. -/
theorem C2_amount_double_division :
    (analyze_transfers [c2Transfer] c2Info 0 60 false (fun _ _ => ⟨0, 0, 0⟩) 1700001000).map
        (fun r => r.buyers.map fun b => (b.address, b.buy_amount, b.holding)) =
      some [("0xa", 1 / 100, 1 / 100)] ∧
      ¬ ((1 : ℚ) / 100 = (c2Transfer.value : ℚ) / 10 ^ 2) := by
  constructor
  · simp only [analyze_transfers, buyersList, cohortEntries, scanOf, ledgerScan, scanStep,
      registerRecipient, buyCredit, recordTx, sellDebit, cohortCheck, freshLedger, freshEB,
      applyLedgerUpdate, computeBuyerReport, creationTime, lookupA, containsKey, updF,
      EXCLUDE_ADDRESSES, strLower, charLower, c2Transfer, c2Info, List.foldl, List.map,
      List.insertionSort, List.orderedInsert, setBnbFields, bnbPhase, botFilter, buildTxCache,
      computeBnbSums]
    norm_num
    decide
  · norm_num [c2Transfer]

/-- Per-entry form of C8: in every report entry produced by the loop body,
`holding = buy_amount - sell_amount`, the status string is `'仍持倉'`
(still holding) exactly when `holding > 0`, and `'已清倉'` (cleared)
otherwise. -/
theorem computeBuyerReport_holding_status (info : TokenInfo) (current_time : ℤ)
    (addr : String) (data : EBEntry) :
    (computeBuyerReport info current_time addr data).holding =
        (computeBuyerReport info current_time addr data).buy_amount -
          (computeBuyerReport info current_time addr data).sell_amount ∧
      ((computeBuyerReport info current_time addr data).status = "仍持倉" ↔
        0 < (computeBuyerReport info current_time addr data).holding) ∧
      (¬ 0 < (computeBuyerReport info current_time addr data).holding →
        (computeBuyerReport info current_time addr data).status = "已清倉") := by
  refine ⟨rfl, ?_, ?_⟩ <;> simp only [computeBuyerReport] <;> split_ifs with h <;>
    simp_all [show ("已清倉" : String) ≠ "仍持倉" from by decide]

/-- C8: for every buyer in the final report list, `holding = buyAmount -
sellAmount` and the status flag satisfies `isHolding = (holding > 0)`:
status `'仍持倉'` exactly when the holding is positive, `'已清倉'`
otherwise. -/
theorem C8_holding_status (transfers : List Transfer) (token_info : TokenInfo)
    (start_seconds end_seconds : ℤ) (api_key : Bool) (lookup : String → String → BnbFlow)
    (current_time : ℤ) (r : AnalysisResult) (b : ReportEntry)
    (hr : analyze_transfers transfers token_info start_seconds end_seconds api_key lookup
      current_time = some r)
    (hb : b ∈ r.buyers) :
    b.holding = b.buy_amount - b.sell_amount ∧
      (b.status = "仍持倉" ↔ 0 < b.holding) ∧
      (¬ 0 < b.holding → b.status = "已清倉") := by
  rw [buyers_of_analyze hr] at hb
  unfold buyersList at hb
  have hb2 := (List.perm_insertionSort reportLe _).subset hb
  obtain ⟨p, _, rfl⟩ := List.mem_map.mp hb2
  exact computeBuyerReport_holding_status token_info current_time p.1 p.2

/-- The fixture run of the C8 witness: one ordinary transfer, quantity-only
mode. -/
def c8Run : Option AnalysisResult :=
  analyze_transfers [⟨"0xx", "0xa", 100, 1700000000, none, "h1"⟩] ⟨0, 0, 0, 100⟩ 0 60 false
    (fun _ _ => ⟨0, 0, 0⟩) 1700001000

/-- The concrete result of that run. -/
def c8Res : AnalysisResult := c8Run.getD ⟨⟨0, 0, 0, 100⟩, ⟨0, 0, 0, 0, 0, 0⟩, []⟩

/-- Witness for C8 on a concrete run. -/
theorem C8_holding_status_witness :
    ∃ b, c8Run = some c8Res ∧ b ∈ c8Res.buyers ∧
      (b.holding = b.buy_amount - b.sell_amount ∧
        (b.status = "仍持倉" ↔ 0 < b.holding) ∧
        (¬ 0 < b.holding → b.status = "已清倉")) := by
  have hr : analyze_transfers [⟨"0xx", "0xa", 100, 1700000000, none, "h1"⟩] ⟨0, 0, 0, 100⟩ 0 60
      false (fun _ _ => ⟨0, 0, 0⟩) 1700001000 = some c8Res := rfl
  have hne : c8Res.buyers ≠ [] := by decide
  exact ⟨c8Res.buyers.head hne, hr, List.head_mem hne,
    C8_holding_status _ _ _ _ _ _ _ _ _ hr (List.head_mem hne)⟩

/-! ## Scan stage lemmas -/

theorem cohortCheck_all (sc ec : ℤ) (t : String) (ts : ℤ) (s : ScanState) :
    (cohortCheck sc ec t ts s).all_buyers = s.all_buyers := by
  unfold cohortCheck; split <;> rfl

theorem recordTx_all (addr h : String) (d : TxDir) (ts : ℤ) (s : ScanState) :
    (recordTx addr h d ts s).all_buyers = s.all_buyers := rfl

theorem registerRecipient_all_lookup_of_some {t : String} {ts : ℤ} {s : ScanState}
    {a : String} {e : LedgerEntry} (h : lookupA s.all_buyers a = some e) :
    lookupA (registerRecipient t ts s).all_buyers a = some e := by
  unfold registerRecipient
  split
  · exact h
  · rw [lookupA_append, h]

theorem registerRecipient_all_lookup_back {t : String} {ts : ℤ} {s : ScanState}
    {a : String} {e : LedgerEntry}
    (h : lookupA (registerRecipient t ts s).all_buyers a = some e) :
    lookupA s.all_buyers a = some e ∨ (a = t ∧ e = freshLedger ts) := by
  unfold registerRecipient at h
  split at h
  · exact Or.inl h
  · rw [lookupA_append] at h
    cases hm : lookupA s.all_buyers a with
    | some v =>
      rw [hm] at h
      exact Or.inl h
    | none =>
      rw [hm] at h
      simp only [lookupA] at h
      split_ifs at h with h2
      exact Or.inr ⟨h2.symm, (Option.some.inj h).symm⟩

theorem buyCredit_all_lookup (t : String) (amt : ℚ) (s : ScanState) (a : String) :
    lookupA (buyCredit t amt s).all_buyers a =
      if a = t then
        (lookupA s.all_buyers a).map (fun e =>
          { e with buy_amount := e.buy_amount + amt, buy_count := e.buy_count + 1 })
      else lookupA s.all_buyers a := by
  unfold buyCredit
  by_cases h : a = t
  · subst h; rw [if_pos rfl]; exact lookupA_updF_eq _ _ _
  · rw [if_neg h]; exact lookupA_updF_ne _ _ h

theorem sellDebit_all_lookup (fr : String) (amt : ℚ) (ts : ℤ) (s : ScanState) (a : String) :
    lookupA (sellDebit fr amt ts s).all_buyers a =
      if a = fr then
        (lookupA s.all_buyers a).map (fun e =>
          { e with sell_amount := e.sell_amount + amt, sell_count := e.sell_count + 1,
                   last_sell_time := ts })
      else lookupA s.all_buyers a := by
  unfold sellDebit
  by_cases h : a = fr
  · subst h; rw [if_pos rfl]; exact lookupA_updF_eq _ _ _
  · rw [if_neg h]; exact lookupA_updF_ne _ _ h

/-- The ledger lookup of the optional buy-side `recordTx` stage: the ledger
map is untouched whichever branch runs. -/
theorem scanBuyHashStage_all_lookup {t hs : String} {d : TxDir} {ts : ℤ} {s2 : ScanState}
    (a : String) :
    lookupA (if hs ≠ "" then recordTx t hs d ts s2 else s2).all_buyers a =
      lookupA s2.all_buyers a := by
  split
  · rw [recordTx_all]
  · rfl

/-- The ledger lookup of the whole sell stage (lines 629-634) at an address
other than the sender: untouched whichever branch runs. -/
theorem scanSellStage_all_lookup_ne {fr hs : String} {amt : ℚ} {ts : ℤ} {s3 : ScanState}
    {a : String} (hne : a ≠ fr) :
    lookupA (if containsKey s3.all_buyers fr then
        (if hs ≠ "" ∧ containsKey (sellDebit fr amt ts s3).address_txs fr then
          recordTx fr hs TxDir.sell ts (sellDebit fr amt ts s3)
        else sellDebit fr amt ts s3)
      else s3).all_buyers a = lookupA s3.all_buyers a := by
  split
  · split
    · rw [recordTx_all, sellDebit_all_lookup, if_neg hne]
    · rw [sellDebit_all_lookup, if_neg hne]
  · rfl

/-- The `all_buyers` ledger entry of an address after one scan step, when
the address never appears (lowercased) as the sender and its incoming
transfers carry raw value 0: the three cumulative fields stay zero. -/
theorem scanStep_zero_entry {dec : ℕ} {sc ec : ℤ} {s : ScanState} {tx : Transfer} {a : String}
    (hto : strLower tx.toAddr = a → tx.value = 0)
    (hfrom : strLower tx.fromAddr ≠ a)
    (h : ∀ e, lookupA s.all_buyers a = some e →
      e.buy_amount = 0 ∧ e.sell_amount = 0 ∧ e.last_sell_time = 0) :
    ∀ e, lookupA (scanStep dec sc ec s tx).all_buyers a = some e →
      e.buy_amount = 0 ∧ e.sell_amount = 0 ∧ e.last_sell_time = 0 := by
  intro e he
  simp only [scanStep] at he
  split at he
  · exact h e he
  · rw [cohortCheck_all, scanSellStage_all_lookup_ne (fun hh => hfrom hh.symm),
      scanBuyHashStage_all_lookup, buyCredit_all_lookup] at he
    by_cases hat : a = strLower tx.toAddr
    · rw [if_pos hat] at he
      cases hreg : lookupA (registerRecipient (strLower tx.toAddr) tx.timeStamp s).all_buyers a
        with
      | none => rw [hreg] at he; cases he
      | some e0 =>
        rw [hreg] at he
        cases Option.some.inj he
        have hval : tx.value = 0 := hto hat.symm
        have h0 : e0.buy_amount = 0 ∧ e0.sell_amount = 0 ∧ e0.last_sell_time = 0 := by
          rcases registerRecipient_all_lookup_back hreg with hold | ⟨_, hfresh⟩
          · exact h e0 hold
          · rw [hfresh]; exact ⟨rfl, rfl, rfl⟩
        refine ⟨?_, h0.2.1, h0.2.2⟩
        simp only [hval, h0.1]
        norm_num
    · rw [if_neg hat] at he
      rcases registerRecipient_all_lookup_back he with hold | ⟨hat2, _⟩
      · exact h e hold
      · exact absurd hat2 hat

/-- A membership-aware fold-invariant principle for the scan loop. -/
theorem scan_foldl_invariant (P : ScanState → Prop) (dec : ℕ) (sc ec : ℤ) :
    ∀ (l : List Transfer) (s0 : ScanState), P s0 →
      (∀ s tx, tx ∈ l → P s → P (scanStep dec sc ec s tx)) →
      P (l.foldl (scanStep dec sc ec) s0) := by
  intro l
  induction l with
  | nil => intro s0 h _; exact h
  | cons tx rest ih =>
    intro s0 h hstep
    exact ih _ (hstep s0 tx (List.mem_cons_self _ _) h)
      (fun s t ht hp => hstep s t (List.mem_cons_of_mem _ ht) hp)

/-- Fold of `scanStep_zero_entry` over the whole transfer list. -/
theorem ledgerScan_zero_entry (transfers : List Transfer) (dec : ℕ) (sc ec : ℤ) (a : String)
    (hto : ∀ tx ∈ transfers, strLower tx.toAddr = a → tx.value = 0)
    (hfrom : ∀ tx ∈ transfers, strLower tx.fromAddr ≠ a) :
    ∀ e, lookupA (ledgerScan transfers dec sc ec).all_buyers a = some e →
      e.buy_amount = 0 ∧ e.sell_amount = 0 ∧ e.last_sell_time = 0 := by
  unfold ledgerScan
  exact scan_foldl_invariant
    (fun st => ∀ e, lookupA st.all_buyers a = some e →
      e.buy_amount = 0 ∧ e.sell_amount = 0 ∧ e.last_sell_time = 0)
    dec sc ec transfers ⟨[], [], []⟩ (fun e he => by cases he)
    (fun s tx htx hs => scanStep_zero_entry (hto tx htx) (hfrom tx htx) hs)

/-! ## Key-set lemmas for the pipeline stages -/

theorem containsKey_iff_mem_keys {β : Type} (m : List (String × β)) (a : String) :
    containsKey m a = true ↔ a ∈ m.map Prod.fst := by
  induction m with
  | nil => simp [containsKey, lookupA]
  | cons p rest ih =>
    obtain ⟨k, v⟩ := p
    unfold containsKey lookupA
    by_cases h : k = a
    · subst h; simp
    · rw [if_neg h]
      simp only [List.map_cons, List.mem_cons]
      constructor
      · intro hh; exact Or.inr (ih.mp hh)
      · intro hh
        rcases hh with hh | hh
        · exact absurd hh.symm h
        · exact ih.mpr hh

theorem containsKey_append_back {β : Type} {m : List (String × β)} {k a : String} {v : β}
    (h : containsKey (m ++ [(k, v)]) a = true) : containsKey m a = true ∨ a = k := by
  unfold containsKey at h ⊢
  rw [lookupA_append] at h
  cases hm : lookupA m a with
  | some w => left; rfl
  | none =>
    rw [hm] at h
    simp only [lookupA] at h
    split_ifs at h with h2
    · exact Or.inr h2.symm
    · cases h

theorem registerRecipient_early (t : String) (ts : ℤ) (s : ScanState) :
    (registerRecipient t ts s).early_buyers = s.early_buyers := by
  unfold registerRecipient; split <;> rfl

theorem buyCredit_early (t : String) (amt : ℚ) (s : ScanState) :
    (buyCredit t amt s).early_buyers = s.early_buyers := rfl

theorem recordTx_early (a h : String) (d : TxDir) (ts : ℤ) (s : ScanState) :
    (recordTx a h d ts s).early_buyers = s.early_buyers := rfl

theorem sellDebit_early (f : String) (amt : ℚ) (ts : ℤ) (s : ScanState) :
    (sellDebit f amt ts s).early_buyers = s.early_buyers := rfl

theorem containsKey_buyCredit (t : String) (amt : ℚ) (s : ScanState) (a : String) :
    containsKey (buyCredit t amt s).all_buyers a = containsKey s.all_buyers a := by
  unfold containsKey
  rw [buyCredit_all_lookup]
  split
  · cases lookupA s.all_buyers a <;> rfl
  · rfl

theorem containsKey_sellDebit (f : String) (amt : ℚ) (ts : ℤ) (s : ScanState) (a : String) :
    containsKey (sellDebit f amt ts s).all_buyers a = containsKey s.all_buyers a := by
  unfold containsKey
  rw [sellDebit_all_lookup]
  split
  · cases lookupA s.all_buyers a <;> rfl
  · rfl

theorem containsKey_registerRecipient_mono {t : String} {ts : ℤ} {s : ScanState} {a : String}
    (h : containsKey s.all_buyers a = true) :
    containsKey (registerRecipient t ts s).all_buyers a = true := by
  unfold containsKey at h ⊢
  obtain ⟨e, he⟩ := Option.isSome_iff_exists.mp h
  rw [registerRecipient_all_lookup_of_some he]
  rfl

theorem containsKey_registerRecipient_self (t : String) (ts : ℤ) (s : ScanState) :
    containsKey (registerRecipient t ts s).all_buyers t = true := by
  unfold registerRecipient
  split
  · rename_i h; exact h
  · rename_i h
    unfold containsKey
    rw [lookupA_append]
    cases hm : lookupA s.all_buyers t with
    | some v =>
      exact absurd (by unfold containsKey; rw [hm]; rfl) h
    | none => simp [lookupA]

theorem scanBuyHashStage_early {t hs : String} {d : TxDir} {ts : ℤ} {s2 : ScanState} :
    (if hs ≠ "" then recordTx t hs d ts s2 else s2).early_buyers = s2.early_buyers := by
  split
  · rw [recordTx_early]
  · rfl

theorem scanBuyHashStage_containsKey {t hs : String} {d : TxDir} {ts : ℤ} {s2 : ScanState}
    (a : String) :
    containsKey (if hs ≠ "" then recordTx t hs d ts s2 else s2).all_buyers a =
      containsKey s2.all_buyers a := by
  split
  · rw [recordTx_all]
  · rfl

theorem scanSellStage_early {fr hs : String} {amt : ℚ} {ts : ℤ} {s3 : ScanState} :
    (if containsKey s3.all_buyers fr then
        (if hs ≠ "" ∧ containsKey (sellDebit fr amt ts s3).address_txs fr then
          recordTx fr hs TxDir.sell ts (sellDebit fr amt ts s3)
        else sellDebit fr amt ts s3)
      else s3).early_buyers = s3.early_buyers := by
  split
  · split
    · rw [recordTx_early, sellDebit_early]
    · rw [sellDebit_early]
  · rfl

theorem scanSellStage_containsKey {fr hs : String} {amt : ℚ} {ts : ℤ} {s3 : ScanState}
    (a : String) :
    containsKey (if containsKey s3.all_buyers fr then
        (if hs ≠ "" ∧ containsKey (sellDebit fr amt ts s3).address_txs fr then
          recordTx fr hs TxDir.sell ts (sellDebit fr amt ts s3)
        else sellDebit fr amt ts s3)
      else s3).all_buyers a = containsKey s3.all_buyers a := by
  split
  · split
    · rw [recordTx_all, containsKey_sellDebit]
    · rw [containsKey_sellDebit]
  · rfl

/-- Reading cohort membership back through `cohortCheck`. -/
theorem cohortCheck_early_cases {sc ec : ℤ} {t : String} {ts : ℤ} {s : ScanState} {a : String}
    (h : containsKey (cohortCheck sc ec t ts s).early_buyers a = true) :
    containsKey s.early_buyers a = true ∨ a = t := by
  unfold cohortCheck at h
  split at h
  · exact containsKey_append_back h
  · exact Or.inl h

/-- The cohort list written by `cohortCheck`, as an equation. -/
theorem cohortCheck_early_eq (sc ec : ℤ) (t : String) (ts : ℤ) (s : ScanState) :
    (cohortCheck sc ec t ts s).early_buyers =
      if sc ≤ ts ∧ ts ≤ ec ∧ ¬ containsKey s.early_buyers t = true then
        s.early_buyers ++ [(t, freshEB t ts)]
      else s.early_buyers := by
  unfold cohortCheck
  split <;> rfl

/-- The cohort list after one scan step: unchanged, or extended with the
(lowercased) recipient, who is then present in `all_buyers`. -/
theorem scanStep_cohort_subset {dec : ℕ} {sc ec : ℤ} {s : ScanState} {tx : Transfer}
    (h : ∀ a, containsKey s.early_buyers a = true → containsKey s.all_buyers a = true) :
    ∀ a, containsKey (scanStep dec sc ec s tx).early_buyers a = true →
      containsKey (scanStep dec sc ec s tx).all_buyers a = true := by
  intro a ha
  simp only [scanStep] at ha ⊢
  split at ha
  · rename_i hex
    rw [if_pos hex]
    exact h a ha
  · rename_i hex
    rw [if_neg hex]
    rw [cohortCheck_all, scanSellStage_containsKey, scanBuyHashStage_containsKey,
      containsKey_buyCredit]
    have hca := cohortCheck_early_cases ha
    rw [scanSellStage_early, scanBuyHashStage_early, buyCredit_early,
      registerRecipient_early] at hca
    rcases hca with hold | heq
    · exact containsKey_registerRecipient_mono (h a hold)
    · rw [heq]
      exact containsKey_registerRecipient_self _ _ _

/-- Cohort keys are always ledger keys. -/
theorem ledgerScan_cohort_subset_all (transfers : List Transfer) (dec : ℕ) (sc ec : ℤ) :
    ∀ a, containsKey (ledgerScan transfers dec sc ec).early_buyers a = true →
      containsKey (ledgerScan transfers dec sc ec).all_buyers a = true := by
  unfold ledgerScan
  exact scan_foldl_invariant
    (fun st => ∀ a, containsKey st.early_buyers a = true → containsKey st.all_buyers a = true)
    dec sc ec transfers ⟨[], [], []⟩ (fun a ha => by cases ha)
    (fun s tx htx hp => scanStep_cohort_subset hp)

/-- The cohort keys are pairwise distinct (an address enters the cohort
only when it is not already a member). -/
theorem ledgerScan_early_nodup (transfers : List Transfer) (dec : ℕ) (sc ec : ℤ) :
    ((ledgerScan transfers dec sc ec).early_buyers.map Prod.fst).Nodup := by
  unfold ledgerScan
  refine scan_foldl_invariant (fun st => (st.early_buyers.map Prod.fst).Nodup)
    dec sc ec transfers ⟨[], [], []⟩ (by simp) ?_
  intro s tx htx h
  simp only [scanStep]
  split
  · exact h
  · rw [cohortCheck_early_eq, scanSellStage_early, scanBuyHashStage_early, buyCredit_early,
      registerRecipient_early]
    split
    · rename_i hcond
      rw [List.map_append]
      have hnot : strLower tx.toAddr ∉ s.early_buyers.map Prod.fst := by
        intro hmem
        exact hcond.2.2 ((containsKey_iff_mem_keys _ _).mpr hmem)
      simp only [List.map_cons, List.map_nil]
      exact List.Nodup.append h (List.nodup_singleton _) (fun x hx hy => by
        simp only [List.mem_singleton] at hy
        subst hy
        exact hnot hx)
    · exact h

theorem applyLedgerUpdate_keys (eb : List (String × EBEntry))
    (all : List (String × LedgerEntry)) :
    (applyLedgerUpdate eb all).map Prod.fst = eb.map Prod.fst := by
  unfold applyLedgerUpdate
  induction eb with
  | nil => rfl
  | cons q rest ih =>
    simp only [List.map_cons]
    rw [ih]
    congr 1
    cases lookupA all q.1 <;> rfl

theorem botFilterStep_keys (atxs : List (String × List TxRec)) (mt : ℕ)
    (acc : List (String × EBEntry) × List (String × List TxRec)) (p : String × EBEntry) :
    ((botFilterStep atxs mt acc p).1).map Prod.fst = (acc.1).map Prod.fst := by
  unfold botFilterStep
  cases lookupA atxs p.1 with
  | none => exact updF_keys _ _ _
  | some txs =>
    dsimp only
    split_ifs <;> first | exact updF_keys _ _ _ | rfl

theorem botFilter_keys (eb : List (String × EBEntry)) (atxs : List (String × List TxRec))
    (mt : ℕ) : ((botFilter eb atxs mt).1).map Prod.fst = eb.map Prod.fst := by
  unfold botFilter
  suffices hgen : ∀ (l : List (String × EBEntry))
      (acc : List (String × EBEntry) × List (String × List TxRec)),
      (((l.foldl (botFilterStep atxs mt) acc)).1).map Prod.fst = (acc.1).map Prod.fst by
    exact hgen eb (eb, [])
  intro l
  induction l with
  | nil => intro acc; rfl
  | cons p rest ih =>
    intro acc
    rw [List.foldl_cons, ih, botFilterStep_keys]

theorem bnbSumStep_keys (cache : List (String × List (String × BnbFlow)))
    (ebAcc : List (String × EBEntry)) (p : String × List TxRec) :
    (bnbSumStep cache ebAcc p).map Prod.fst = ebAcc.map Prod.fst := by
  unfold bnbSumStep
  exact updF_keys _ _ _

theorem bnbPhase_keys (eb : List (String × EBEntry)) (atxs : List (String × List TxRec))
    (mt : ℕ) (lookup : String → String → BnbFlow) :
    (bnbPhase eb atxs mt lookup).map Prod.fst = eb.map Prod.fst := by
  unfold bnbPhase
  have hgen : ∀ (cache : List (String × List (String × BnbFlow)))
      (l : List (String × List TxRec)) (acc : List (String × EBEntry)),
      (l.foldl (bnbSumStep cache) acc).map Prod.fst = acc.map Prod.fst := by
    intro cache l
    induction l with
    | nil => intro acc; rfl
    | cons p rest ih =>
      intro acc
      rw [List.foldl_cons, ih, bnbSumStep_keys]
  rw [hgen, botFilter_keys]

/-- Every cohort entry of the report loop keys into the scan's cohort. -/
theorem cohortEntries_key_in_scan {transfers : List Transfer} {token_info : TokenInfo}
    {start_seconds end_seconds : ℤ} {api_key : Bool} {lookup : String → String → BnbFlow}
    {p : String × EBEntry}
    (hp : p ∈ cohortEntries transfers token_info start_seconds end_seconds api_key lookup) :
    containsKey (scanOf transfers token_info start_seconds end_seconds).early_buyers p.1
      = true := by
  unfold cohortEntries at hp
  have h1 := List.mem_map_of_mem Prod.fst hp
  rw [applyLedgerUpdate_keys] at h1
  split at h1
  · rw [bnbPhase_keys, applyLedgerUpdate_keys] at h1
    exact (containsKey_iff_mem_keys _ _).mpr h1
  · rw [applyLedgerUpdate_keys] at h1
    exact (containsKey_iff_mem_keys _ _).mpr h1

/-- Where each entry of `applyLedgerUpdate` comes from: the six ledger
fields are those of the `all_buyers` record when present, and the BNB keys
are inherited unchanged. -/
theorem mem_applyLedgerUpdate {eb : List (String × EBEntry)}
    {all : List (String × LedgerEntry)} {p : String × EBEntry}
    (h : p ∈ applyLedgerUpdate eb all) :
    ∃ q ∈ eb, p.1 = q.1 ∧
      ((∃ l, lookupA all q.1 = some l ∧ p.2.first_buy_time = l.first_buy_time ∧
        p.2.buy_amount = l.buy_amount ∧ p.2.sell_amount = l.sell_amount ∧
        p.2.buy_count = l.buy_count ∧ p.2.sell_count = l.sell_count ∧
        p.2.last_sell_time = l.last_sell_time ∧ p.2.bnb_spent = q.2.bnb_spent ∧
        p.2.bnb_received = q.2.bnb_received ∧ p.2.bnb_profit = q.2.bnb_profit ∧
        p.2.is_bot = q.2.is_bot) ∨
       (lookupA all q.1 = none ∧ p.2 = q.2)) := by
  unfold applyLedgerUpdate at h
  obtain ⟨q, hq, heq⟩ := List.mem_map.mp h
  refine ⟨q, hq, ?_⟩
  cases hl : lookupA all q.1 with
  | some l =>
    rw [hl] at heq
    subst heq
    exact ⟨rfl, Or.inl ⟨l, rfl, rfl, rfl, rfl, rfl, rfl, rfl, rfl, rfl, rfl, rfl⟩⟩
  | none =>
    rw [hl] at heq
    subst heq
    exact ⟨rfl, Or.inr ⟨rfl, rfl⟩⟩

/-- The report-loop body on a ledger-zero entry: no holding, cleared
status, and a holding duration of `0 - firstBuyTime`. -/
theorem computeBuyerReport_zero_entry (info : TokenInfo) (current_time : ℤ) (addr : String)
    {data : EBEntry} (h1 : data.buy_amount = 0) (h2 : data.sell_amount = 0)
    (h3 : data.last_sell_time = 0) :
    (computeBuyerReport info current_time addr data).holding = 0 ∧
      (computeBuyerReport info current_time addr data).status = "已清倉" ∧
      (computeBuyerReport info current_time addr data).holding_duration_seconds =
        0 - (computeBuyerReport info current_time addr data).first_buy_timestamp := by
  simp only [computeBuyerReport, h1, h2, h3]
  norm_num

/-- C10 (implicit): the reported `holding_duration_seconds` is not
guaranteed non-negative.  For a cohort address all of whose incoming
transfers carry raw value 0 and that never appears (lowercased) as a
sender, the holding is 0, the address is classified as cleared, its
`last_sell_time` stays the initial 0, and the duration is
`0 - firstBuyTime`, negative for any positive timestamp. -/
theorem C10_negative_holding_duration (transfers : List Transfer) (token_info : TokenInfo)
    (start_seconds end_seconds : ℤ) (api_key : Bool) (lookup : String → String → BnbFlow)
    (current_time : ℤ) (r : AnalysisResult) (b : ReportEntry)
    (hr : analyze_transfers transfers token_info start_seconds end_seconds api_key lookup
      current_time = some r)
    (hb : b ∈ r.buyers)
    (hto : ∀ tx ∈ transfers, strLower tx.toAddr = b.address → tx.value = 0)
    (hfrom : ∀ tx ∈ transfers, strLower tx.fromAddr ≠ b.address)
    (hpos : 0 < b.first_buy_timestamp) :
    b.holding = 0 ∧ b.status = "已清倉" ∧
      b.holding_duration_seconds = 0 - b.first_buy_timestamp ∧
      b.holding_duration_seconds < 0 := by
  rw [buyers_of_analyze hr] at hb
  unfold buyersList at hb
  have hb2 := (List.perm_insertionSort reportLe _).subset hb
  obtain ⟨p, hp, heq⟩ := List.mem_map.mp hb2
  have haddr : b.address = p.1 := by rw [← heq]; rfl
  have hkey := cohortEntries_key_in_scan hp
  unfold scanOf at hkey
  have hall := ledgerScan_cohort_subset_all transfers token_info.decimals
    (creationTime transfers + start_seconds) (creationTime transfers + end_seconds) p.1 hkey
  unfold containsKey at hall
  obtain ⟨l, hl⟩ := Option.isSome_iff_exists.mp hall
  have hzero := ledgerScan_zero_entry transfers token_info.decimals
    (creationTime transfers + start_seconds) (creationTime transfers + end_seconds) p.1
    (fun tx htx hh => hto tx htx (by rw [haddr]; exact hh))
    (fun tx htx => haddr ▸ hfrom tx htx) l hl
  unfold cohortEntries scanOf at hp
  obtain ⟨q, hq, hpq, hcases⟩ := mem_applyLedgerUpdate hp
  rcases hcases with ⟨l2, hl2, hfbt, hbuy, hsell, _, _, hlast, _⟩ | ⟨hnone, _⟩
  · rw [← hpq] at hl2
    rw [hl] at hl2
    cases Option.some.inj hl2
    have hrep := computeBuyerReport_zero_entry token_info current_time p.1
      (hbuy.trans hzero.1) (hsell.trans hzero.2.1) (hlast.trans hzero.2.2)
    rw [heq] at hrep
    refine ⟨hrep.1, hrep.2.1, hrep.2.2, ?_⟩
    rw [hrep.2.2]
    omega
  · rw [← hpq, hl] at hnone
    cases hnone

/-- The fixture of the C10 witness: address `0xa` receives one zero-value
transfer inside the window and never sends. -/
def c10Run : Option AnalysisResult :=
  analyze_transfers
    [⟨"0xx", "0xb", 100, 1700000000, none, "h1"⟩, ⟨"0xy", "0xa", 0, 1700000005, none, "h2"⟩]
    ⟨0, 0, 0, 100⟩ 0 60 false (fun _ _ => ⟨0, 0, 0⟩) 1700001000

def c10Res : AnalysisResult := c10Run.getD ⟨⟨0, 0, 0, 100⟩, ⟨0, 0, 0, 0, 0, 0⟩, []⟩

theorem c10_drop_ne : c10Res.buyers.drop 1 ≠ [] := by decide

/-- Witness for C10 on a concrete run: the `0xa` report entry has holding
0, cleared status and a negative holding duration. -/
theorem C10_negative_holding_duration_witness :
    ∃ b, c10Run = some c10Res ∧ b ∈ c10Res.buyers ∧
      (b.holding = 0 ∧ b.status = "已清倉" ∧
        b.holding_duration_seconds = 0 - b.first_buy_timestamp ∧
        b.holding_duration_seconds < 0) := by
  have hr : analyze_transfers
      [⟨"0xx", "0xb", 100, 1700000000, none, "h1"⟩, ⟨"0xy", "0xa", 0, 1700000005, none, "h2"⟩]
      ⟨0, 0, 0, 100⟩ 0 60 false (fun _ _ => ⟨0, 0, 0⟩) 1700001000 = some c10Res := rfl
  have hmem : (c10Res.buyers.drop 1).head c10_drop_ne ∈ c10Res.buyers :=
    List.mem_of_mem_drop (List.head_mem c10_drop_ne)
  refine ⟨(c10Res.buyers.drop 1).head c10_drop_ne, hr, hmem, ?_⟩
  exact C10_negative_holding_duration _ _ _ _ _ _ _ _ _ hr hmem
    (by intro tx htx hh; revert hh; fin_cases htx <;> decide)
    (by intro tx htx; fin_cases htx <;> decide)
    (by decide)

theorem lookupA_eq_none_of_not_mem {β : Type} {m : List (String × β)} {a : String}
    (h : a ∉ m.map Prod.fst) : lookupA m a = none := by
  have hc : containsKey m a = false := by
    cases hcc : containsKey m a with
    | false => rfl
    | true => exact absurd ((containsKey_iff_mem_keys m a).mp hcc) h
  unfold containsKey at hc
  exact Option.not_isSome_iff_eq_none.mp (by rw [hc]; exact Bool.false_ne_true)

/-- A bot-filter step at another key neither touches the entry at `a` nor
adds an `a`-keyed valid buyer. -/
theorem botFilterStep_other (atxs : List (String × List TxRec)) (mt : ℕ)
    (acc : List (String × EBEntry) × List (String × List TxRec)) {p : String × EBEntry}
    {a : String} (hne : p.1 ≠ a) :
    lookupA ((botFilterStep atxs mt acc p).1) a = lookupA acc.1 a ∧
      (∀ q ∈ (botFilterStep atxs mt acc p).2, q.1 = a → q ∈ acc.2) := by
  unfold botFilterStep
  cases lookupA atxs p.1 with
  | none => exact ⟨lookupA_updF_ne _ _ (fun h => hne h.symm), fun q hq _ => hq⟩
  | some txs =>
    dsimp only
    split_ifs
    · exact ⟨lookupA_updF_ne _ _ (fun h => hne h.symm), fun q hq _ => hq⟩
    · exact ⟨lookupA_updF_ne _ _ (fun h => hne h.symm), fun q hq _ => hq⟩
    · refine ⟨rfl, fun q hq hqa => ?_⟩
      rcases List.mem_append.mp hq with h | h
      · exact h
      · rw [List.mem_singleton] at h
        exact absurd (hqa ▸ congrArg Prod.fst h).symm hne

theorem botFilter_other_segment (atxs : List (String × List TxRec)) (mt : ℕ) {a : String} :
    ∀ (l : List (String × EBEntry))
      (acc : List (String × EBEntry) × List (String × List TxRec)),
      (∀ p ∈ l, p.1 ≠ a) →
      lookupA ((l.foldl (botFilterStep atxs mt) acc).1) a = lookupA acc.1 a ∧
        (∀ q ∈ (l.foldl (botFilterStep atxs mt) acc).2, q.1 = a → q ∈ acc.2) := by
  intro l
  induction l with
  | nil => exact fun acc _ => ⟨rfl, fun q hq _ => hq⟩
  | cons p rest ih =>
    intro acc hl
    rw [List.foldl_cons]
    have hstep := botFilterStep_other atxs mt acc (hl p (List.mem_cons_self p rest))
    have hrest := ih (botFilterStep atxs mt acc p) (fun q hq => hl q (List.mem_cons_of_mem p hq))
    exact ⟨hrest.1.trans hstep.1, fun q hq hqa => hstep.2 q (hrest.2 q hq hqa) hqa⟩

/-- The bot-filter step on an address whose record count exceeds the
threshold: the entry gets zero BNB sums and the bot flag, and the address
is not collected as a valid buyer. -/
theorem botFilterStep_bot {atxs : List (String × List TxRec)} {mt : ℕ}
    (acc : List (String × EBEntry) × List (String × List TxRec)) {p : String × EBEntry}
    {txs : List TxRec} (htxs : lookupA atxs p.1 = some txs) (hne : txs ≠ [])
    (hthr : mt < txs.length) :
    botFilterStep atxs mt acc p = (updF acc.1 p.1 (setBnbFields 0 0 0 true), acc.2) := by
  unfold botFilterStep
  rw [htxs]
  dsimp only
  rw [if_neg (fun h0 => hne (List.length_eq_zero.mp h0)), if_pos hthr]

/-- Phase 1 on a cohort whose keys are distinct: an above-threshold address
ends up flagged as a bot with zeroed BNB fields, and is excluded from the
valid-buyer list. -/
theorem botFilter_bot_spec {eb : List (String × EBEntry)}
    {atxs : List (String × List TxRec)} {mt : ℕ} {a : String} {e : EBEntry}
    {txs : List TxRec} (hnd : (eb.map Prod.fst).Nodup) (hmem : (a, e) ∈ eb)
    (htxs : lookupA atxs a = some txs) (hne : txs ≠ []) (hthr : mt < txs.length) :
    lookupA (botFilter eb atxs mt).1 a = some (setBnbFields 0 0 0 true e) ∧
      (∀ q ∈ (botFilter eb atxs mt).2, q.1 ≠ a) := by
  obtain ⟨l1, l2, heb⟩ := List.append_of_mem hmem
  subst heb
  have hkeys : ((l1 ++ (a, e) :: l2).map Prod.fst) =
      l1.map Prod.fst ++ a :: l2.map Prod.fst := by simp
  rw [hkeys] at hnd
  have ha1 : a ∉ l1.map Prod.fst := fun h =>
    (List.disjoint_of_nodup_append hnd) h (List.mem_cons_self a _)
  have ha2 : a ∉ l2.map Prod.fst := by
    have := (List.nodup_append.mp hnd).2.1
    exact (List.nodup_cons.mp this).1
  have h1 : ∀ p ∈ l1, p.1 ≠ a := fun p hp h =>
    ha1 (h ▸ List.mem_map_of_mem Prod.fst hp)
  have h2 : ∀ p ∈ l2, p.1 ≠ a := fun p hp h =>
    ha2 (h ▸ List.mem_map_of_mem Prod.fst hp)
  unfold botFilter
  rw [List.foldl_append, List.foldl_cons]
  set init : List (String × EBEntry) × List (String × List TxRec) :=
    (l1 ++ (a, e) :: l2, []) with hinit
  have hseg1 := botFilter_other_segment atxs mt l1 init h1
  have hlook : lookupA (l1.foldl (botFilterStep atxs mt) init).1 a = some e := by
    rw [hseg1.1, hinit]
    rw [lookupA_append, lookupA_eq_none_of_not_mem ha1]
    unfold lookupA
    rw [if_pos rfl]
  have hstep := botFilterStep_bot (l1.foldl (botFilterStep atxs mt) init)
    (p := (a, e)) htxs hne hthr
  have hseg2 := botFilter_other_segment atxs mt l2
    (botFilterStep atxs mt (l1.foldl (botFilterStep atxs mt) init) (a, e)) h2
  constructor
  · rw [hseg2.1, hstep]
    dsimp only
    rw [lookupA_updF_eq, hlook]
    rfl
  · intro q hq hqa
    have hq2 := hseg2.2 q hq hqa
    rw [hstep] at hq2
    dsimp only at hq2
    have hq3 := hseg1.2 q hq2 hqa
    rw [hinit] at hq3
    cases hq3

theorem bnbSumFold_other (cache : List (String × List (String × BnbFlow))) {a : String} :
    ∀ (l : List (String × List TxRec)) (m : List (String × EBEntry)),
      (∀ q ∈ l, q.1 ≠ a) →
      lookupA (l.foldl (bnbSumStep cache) m) a = lookupA m a := by
  intro l
  induction l with
  | nil => exact fun m _ => rfl
  | cons q rest ih =>
    intro m hl
    rw [List.foldl_cons, ih _ (fun r hr => hl r (List.mem_cons_of_mem q hr))]
    unfold bnbSumStep
    exact lookupA_updF_ne _ _ (fun h => hl q (List.mem_cons_self q rest) h.symm)

/-- The whole BNB block on an above-threshold address: the final cohort
entry at that address is its input entry with zero BNB sums and the bot
flag, untouched by the per-buyer summation phase. -/
theorem bnbPhase_bot_spec {eb : List (String × EBEntry)}
    {atxs : List (String × List TxRec)} {mt : ℕ} {a : String} {e : EBEntry}
    {txs : List TxRec} (lookup : String → String → BnbFlow)
    (hnd : (eb.map Prod.fst).Nodup) (hmem : (a, e) ∈ eb)
    (htxs : lookupA atxs a = some txs) (hne : txs ≠ []) (hthr : mt < txs.length) :
    lookupA (bnbPhase eb atxs mt lookup) a = some (setBnbFields 0 0 0 true e) := by
  unfold bnbPhase
  have hbf := botFilter_bot_spec hnd hmem htxs hne hthr
  rw [bnbSumFold_other _ _ _ (fun q hq h => hbf.2 q hq h)]
  exact hbf.1

/-- The ledger re-synchronisation keeps every entry's BNB keys. -/
theorem applyLedgerUpdate_mem_of_mem {eb : List (String × EBEntry)}
    (all : List (String × LedgerEntry)) {q : String × EBEntry} (hq : q ∈ eb) :
    ∃ p ∈ applyLedgerUpdate eb all, p.1 = q.1 ∧ p.2.bnb_spent = q.2.bnb_spent ∧
      p.2.bnb_received = q.2.bnb_received ∧ p.2.is_bot = q.2.is_bot := by
  unfold applyLedgerUpdate
  refine ⟨_, List.mem_map_of_mem _ hq, ?_⟩
  cases lookupA all q.1 <;> exact ⟨rfl, rfl, rfl, rfl⟩

/-- The report-loop body on a flagged-bot entry under a zero flat token
price: the bot flag survives and all five monetary fields are 0. -/
theorem computeBuyerReport_bot_fields (info : TokenInfo) (current_time : ℤ) (addr : String)
    {data : EBEntry} (h1 : data.bnb_spent = some 0) (h2 : data.bnb_received = some 0)
    (h3 : data.is_bot = some true) (h4 : info.price_usd = 0) :
    (computeBuyerReport info current_time addr data).is_bot = true ∧
      (computeBuyerReport info current_time addr data).buy_value_usd = 0 ∧
      (computeBuyerReport info current_time addr data).sell_value_usd = 0 ∧
      (computeBuyerReport info current_time addr data).holding_value_usd = 0 ∧
      (computeBuyerReport info current_time addr data).total_profit_usd = 0 ∧
      (computeBuyerReport info current_time addr data).profit_multiple = 0 := by
  simp only [computeBuyerReport, h1, h2, h3, h4]
  norm_num

/-- Fixture shared by the C4 analyses: address `0xa` makes two buys with
distinct hashes inside the window, against a threshold of 1. -/
def c4Transfers : List Transfer :=
  [⟨"0xx", "0xa", 100, 1700000000, none, "h1"⟩,
   ⟨"0xy", "0xa", 100, 1700000005, none, "h2"⟩]

def c4Info : TokenInfo := ⟨0, 0, 0, 1⟩

def c4Res : AnalysisResult :=
  (analyze_transfers c4Transfers c4Info 0 60 false (fun _ _ => ⟨0, 0, 0⟩)
    1700001000).getD ⟨⟨0, 0, 0, 100⟩, ⟨0, 0, 0, 0, 0, 0⟩, []⟩

/-- C4, refuted as stated: without an API key (so no BNB price data), the
bot filter never runs, and an address whose transaction-record count (2)
exceeds the threshold (1) is reported with `is_bot = false` — the claim's
"regardless of which price data is available" fails. -/
theorem C4_counterexample :
    1 < ((lookupA (scanOf c4Transfers c4Info 0 60).address_txs "0xa").getD []).length ∧
      c4Info.max_txs_per_buyer = 1 ∧
      ∃ b ∈ c4Res.buyers, b.address = "0xa" ∧ b.is_bot = false := by
  decide

/-- C4 (amended): in native-flow mode (API key present and positive BNB
price) and with the flat token price 0 — the value `analyze_token` always
passes — every cohort address whose transaction-record count exceeds the
threshold is reported with `is_bot = true`, all five monetary fields 0, and
still appears in the output. -/
theorem C4_bot_flagging (transfers : List Transfer) (token_info : TokenInfo)
    (start_seconds end_seconds : ℤ) (api_key : Bool)
    (lookup : String → String → BnbFlow) (current_time : ℤ) (r : AnalysisResult)
    (a : String) (txs : List TxRec)
    (hr : analyze_transfers transfers token_info start_seconds end_seconds api_key lookup
      current_time = some r)
    (hapi : api_key = true) (hbnb : 0 < token_info.bnb_price_usd)
    (hprice : token_info.price_usd = 0)
    (htxs : lookupA (scanOf transfers token_info start_seconds end_seconds).address_txs a
      = some txs)
    (htne : txs ≠ []) (hthr : token_info.max_txs_per_buyer < txs.length)
    (hcoh : containsKey (scanOf transfers token_info start_seconds end_seconds).early_buyers a
      = true) :
    ∃ b ∈ r.buyers, b.address = a ∧ b.is_bot = true ∧
      b.buy_value_usd = 0 ∧ b.sell_value_usd = 0 ∧ b.holding_value_usd = 0 ∧
      b.total_profit_usd = 0 ∧ b.profit_multiple = 0 := by
  subst hapi
  have hkeys1 : (applyLedgerUpdate
          (scanOf transfers token_info start_seconds end_seconds).early_buyers
          (scanOf transfers token_info start_seconds end_seconds).all_buyers).map Prod.fst
      = (scanOf transfers token_info start_seconds end_seconds).early_buyers.map Prod.fst :=
    applyLedgerUpdate_keys _ _
  have hc1 : containsKey (applyLedgerUpdate
      (scanOf transfers token_info start_seconds end_seconds).early_buyers
      (scanOf transfers token_info start_seconds end_seconds).all_buyers) a = true := by
    rw [containsKey_iff_mem_keys, hkeys1]
    exact (containsKey_iff_mem_keys _ _).mp hcoh
  unfold containsKey at hc1
  obtain ⟨e1, he1⟩ := Option.isSome_iff_exists.mp hc1
  have hmem1 := lookupA_mem he1
  have hnd1 : ((applyLedgerUpdate
      (scanOf transfers token_info start_seconds end_seconds).early_buyers
      (scanOf transfers token_info start_seconds end_seconds).all_buyers).map Prod.fst).Nodup := by
    rw [hkeys1]
    unfold scanOf
    exact ledgerScan_early_nodup _ _ _ _
  have hphase := bnbPhase_bot_spec lookup hnd1 hmem1 htxs htne hthr
  have hmem2 := lookupA_mem hphase
  obtain ⟨p, hp, hpa, hps, hprc, hpbot⟩ := applyLedgerUpdate_mem_of_mem
    (scanOf transfers token_info start_seconds end_seconds).all_buyers hmem2
  have hco : cohortEntries transfers token_info start_seconds end_seconds true lookup
      = applyLedgerUpdate
          (bnbPhase (applyLedgerUpdate
              (scanOf transfers token_info start_seconds end_seconds).early_buyers
              (scanOf transfers token_info start_seconds end_seconds).all_buyers)
            (scanOf transfers token_info start_seconds end_seconds).address_txs
            token_info.max_txs_per_buyer lookup)
          (scanOf transfers token_info start_seconds end_seconds).all_buyers := by
    simp only [cohortEntries]
    rw [if_pos ⟨trivial, hbnb⟩]
  have hpcoh : p ∈ cohortEntries transfers token_info start_seconds end_seconds true lookup := by
    rw [hco]
    exact hp
  have hb : computeBuyerReport token_info current_time p.1 p.2 ∈
      buyersList transfers token_info start_seconds end_seconds true lookup current_time := by
    unfold buyersList
    exact (List.Perm.mem_iff (List.perm_insertionSort reportLe _)).mpr
      (List.mem_map_of_mem _ hpcoh)
  rw [← buyers_of_analyze hr] at hb
  have hfields := computeBuyerReport_bot_fields token_info current_time p.1
    (hps.trans rfl) (hprc.trans rfl) (hpbot.trans rfl) hprice
  exact ⟨computeBuyerReport token_info current_time p.1 p.2, hb, hpa, hfields.1,
    hfields.2.1, hfields.2.2.1, hfields.2.2.2.1, hfields.2.2.2.2.1, hfields.2.2.2.2.2⟩

def c4wInfo : TokenInfo := ⟨0, 0, 1, 1⟩

def c4wRes : AnalysisResult :=
  (analyze_transfers c4Transfers c4wInfo 0 60 true (fun _ _ => ⟨0, 0, 0⟩)
    1700001000).getD ⟨⟨0, 0, 0, 100⟩, ⟨0, 0, 0, 0, 0, 0⟩, []⟩

/-- Witness for C4 on a concrete native-flow run: the above-threshold
address `0xa` is reported flagged with zeroed monetary fields. -/
theorem C4_bot_flagging_witness :
    ∃ b ∈ c4wRes.buyers, b.address = "0xa" ∧ b.is_bot = true ∧
      b.buy_value_usd = 0 ∧ b.sell_value_usd = 0 ∧ b.holding_value_usd = 0 ∧
      b.total_profit_usd = 0 ∧ b.profit_multiple = 0 := by
  have hr : analyze_transfers c4Transfers c4wInfo 0 60 true (fun _ _ => ⟨0, 0, 0⟩)
      1700001000 = some c4wRes := rfl
  have htxs : lookupA (scanOf c4Transfers c4wInfo 0 60).address_txs "0xa"
      = some [⟨"h1", TxDir.buy, 1700000000⟩, ⟨"h2", TxDir.buy, 1700000005⟩] := by decide
  exact C4_bot_flagging c4Transfers c4wInfo 0 60 true (fun _ _ => ⟨0, 0, 0⟩) 1700001000
    c4wRes "0xa" _ hr rfl (by simp only [c4wInfo] ; norm_num) rfl htxs (by decide) (by decide)
    (by decide)

theorem lookupA_singleton {β : Type} (k a : String) (v : β) :
    lookupA [(k, v)] a = if k = a then some v else none := by
  unfold lookupA
  rfl

theorem containsKey_append_left {β : Type} {m : List (String × β)}
    (l : List (String × β)) {a : String} (h : containsKey m a = true) :
    containsKey (m ++ l) a = true := by
  unfold containsKey at h ⊢
  rw [lookupA_append]
  cases hm : lookupA m a with
  | none => rw [hm] at h; cases h
  | some v => rfl

theorem containsKey_append_self {β : Type} (m : List (String × β)) (h : String) (v : β) :
    containsKey (m ++ [(h, v)]) h = true := by
  unfold containsKey
  rw [lookupA_append]
  cases hm : lookupA m h with
  | some w => rfl
  | none => rw [lookupA_singleton, if_pos rfl]; rfl

/-- `(a, h)` already sits in the two-level cache. -/
def Cached (cache : List (String × List (String × BnbFlow))) (a h : String) : Prop :=
  ∃ m, lookupA cache a = some m ∧ containsKey m h = true

/-- Every stored flow is the lookup result for its own `(address, hash)`
pair — two addresses sharing a hash keep independent attributions. -/
def cacheFaithful (lookup : String → String → BnbFlow)
    (cache : List (String × List (String × BnbFlow))) : Prop :=
  ∀ a m h v, lookupA cache a = some m → lookupA m h = some v → v = lookup a h

/-- The invariant of the cache-filling loop: the query trace has no
repeated `(address, hash)` pair, every traced pair is cached, and the
cache is faithful to the lookup function. -/
def txCacheInv (lookup : String → String → BnbFlow)
    (acc : List (String × List (String × BnbFlow)) × List (String × String)) : Prop :=
  acc.2.Nodup ∧ (∀ q ∈ acc.2, Cached acc.1 q.1 q.2) ∧ cacheFaithful lookup acc.1

theorem cached_updF_append {c : List (String × List (String × BnbFlow))}
    (addr h2 : String) (v2 : BnbFlow) {a h : String} (hc : Cached c a h) :
    Cached (updF c addr (fun l => l ++ [(h2, v2)])) a h := by
  obtain ⟨m, hm, hk⟩ := hc
  by_cases ha : a = addr
  · subst ha
    exact ⟨m ++ [(h2, v2)], by rw [lookupA_updF_eq, hm]; rfl, containsKey_append_left _ hk⟩
  · exact ⟨m, by rw [lookupA_updF_ne _ _ ha]; exact hm, hk⟩

theorem cached_updF_self {c : List (String × List (String × BnbFlow))} {addr : String}
    {m : List (String × BnbFlow)} (hm : lookupA c addr = some m) (h2 : String)
    (v2 : BnbFlow) : Cached (updF c addr (fun l => l ++ [(h2, v2)])) addr h2 :=
  ⟨m ++ [(h2, v2)], by rw [lookupA_updF_eq, hm]; rfl, containsKey_append_self m h2 v2⟩

theorem cached_append_key {c : List (String × List (String × BnbFlow))} (k : String)
    {a h : String} (hc : Cached c a h) : Cached (c ++ [(k, [])]) a h := by
  obtain ⟨m, hm, hk⟩ := hc
  refine ⟨m, ?_, hk⟩
  rw [lookupA_append, hm]

theorem faithful_updF (lookup : String → String → BnbFlow)
    {c : List (String × List (String × BnbFlow))} {addr : String}
    {m : List (String × BnbFlow)} (hm : lookupA c addr = some m) (h2 : String)
    (hgood : cacheFaithful lookup c) :
    cacheFaithful lookup (updF c addr (fun l => l ++ [(h2, lookup addr h2)])) := by
  intro a m2 h v hm2 hv
  by_cases ha : a = addr
  · subst ha
    rw [lookupA_updF_eq, hm, Option.map_some'] at hm2
    cases Option.some.inj hm2
    rw [lookupA_append] at hv
    cases hvm : lookupA m h with
    | some w =>
      rw [hvm] at hv
      exact hgood a m h v hm (hv ▸ hvm)
    | none =>
      rw [hvm, lookupA_singleton] at hv
      split_ifs at hv with hh
      cases Option.some.inj hv
      rw [← hh]
  · rw [lookupA_updF_ne _ _ ha] at hm2
    exact hgood a m2 h v hm2 hv

theorem faithful_append_key (lookup : String → String → BnbFlow)
    {c : List (String × List (String × BnbFlow))} (k : String)
    (hgood : cacheFaithful lookup c) : cacheFaithful lookup (c ++ [(k, [])]) := by
  intro a m h v hm hv
  rw [lookupA_append] at hm
  cases hc : lookupA c a with
  | some m0 =>
    rw [hc] at hm
    cases Option.some.inj hm
    exact hgood a _ h v hc hv
  | none =>
    rw [hc, lookupA_singleton] at hm
    split_ifs at hm with hk
    cases Option.some.inj hm
    simp [lookupA] at hv

theorem txCacheInner_inv (lookup : String → String → BnbFlow) (addr : String)
    {acc2 : List (String × List (String × BnbFlow)) × List (String × String)} (r : TxRec)
    (hI : txCacheInv lookup acc2) : txCacheInv lookup (txCacheInner lookup addr acc2 r) := by
  obtain ⟨hnd, hcached, hgood⟩ := hI
  unfold txCacheInner
  cases hm : lookupA acc2.1 addr with
  | none => exact ⟨hnd, hcached, hgood⟩
  | some m =>
    dsimp only
    split_ifs with hk
    · exact ⟨hnd, hcached, hgood⟩
    · refine ⟨?_, ?_, faithful_updF lookup hm r.hash hgood⟩
      · refine List.Nodup.append hnd (List.nodup_singleton _) ?_
        intro x hx hy
        rw [List.mem_singleton] at hy
        subst hy
        obtain ⟨m2, hm2, hk2⟩ := hcached _ hx
        rw [hm] at hm2
        cases Option.some.inj hm2
        exact absurd hk2 hk
      · intro q hq
        rcases List.mem_append.mp hq with hq | hq
        · exact cached_updF_append addr r.hash (lookup addr r.hash) (hcached q hq)
        · rw [List.mem_singleton] at hq
          subst hq
          exact cached_updF_self hm r.hash (lookup addr r.hash)

theorem txCacheInner_fold_inv (lookup : String → String → BnbFlow) (addr : String) :
    ∀ (txs : List TxRec)
      (acc2 : List (String × List (String × BnbFlow)) × List (String × String)),
      txCacheInv lookup acc2 →
      txCacheInv lookup (txs.foldl (txCacheInner lookup addr) acc2) := by
  intro txs
  induction txs with
  | nil => exact fun acc2 h => h
  | cons r rest ih =>
    intro acc2 hI
    rw [List.foldl_cons]
    exact ih _ (txCacheInner_inv lookup addr r hI)

theorem txCacheOuter_inv (lookup : String → String → BnbFlow)
    {acc : List (String × List (String × BnbFlow)) × List (String × String)}
    (p : String × List TxRec) (hI : txCacheInv lookup acc) :
    txCacheInv lookup (txCacheOuter lookup acc p) := by
  obtain ⟨hnd, hcached, hgood⟩ := hI
  unfold txCacheOuter
  apply txCacheInner_fold_inv
  dsimp only
  split_ifs with hc
  · exact ⟨hnd, hcached, hgood⟩
  · exact ⟨hnd, fun q hq => cached_append_key p.1 (hcached q hq),
      faithful_append_key lookup p.1 hgood⟩

theorem buildTxCache_inv (valid_buyers : List (String × List TxRec))
    (lookup : String → String → BnbFlow) :
    txCacheInv lookup (buildTxCache valid_buyers lookup) := by
  unfold buildTxCache
  suffices hgen : ∀ (l : List (String × List TxRec))
      (acc : List (String × List (String × BnbFlow)) × List (String × String)),
      txCacheInv lookup acc → txCacheInv lookup (l.foldl (txCacheOuter lookup) acc) by
    exact hgen valid_buyers ([], []) ⟨List.nodup_nil, fun q hq => absurd hq (List.not_mem_nil q),
      fun a m h v hm => by cases hm⟩
  intro l
  induction l with
  | nil => exact fun acc h => h
  | cons p rest ih =>
    intro acc hI
    rw [List.foldl_cons]
    exact ih _ (txCacheOuter_inv lookup p hI)

/-- C6: the native-flow cache is keyed two-level by address then hash: the
query trace never repeats an `(address, txHash)` pair, and each cached
flow is the lookup result for its own address — two addresses sharing a
transaction hash keep independent inflow/outflow attributions. -/
theorem C6_tx_cache_two_level (valid_buyers : List (String × List TxRec))
    (lookup : String → String → BnbFlow) :
    (buildTxCache valid_buyers lookup).2.Nodup ∧
      ∀ a m h v, lookupA (buildTxCache valid_buyers lookup).1 a = some m →
        lookupA m h = some v → v = lookup a h :=
  ⟨(buildTxCache_inv valid_buyers lookup).1, (buildTxCache_inv valid_buyers lookup).2.2⟩

/-- Fixture of the C6 witness: two valid buyers touched by the same
transaction hash, with a lookup function distinguishing the two sides. -/
def c6Buyers : List (String × List TxRec) :=
  [("0xa", [⟨"hh", TxDir.buy, 1700000000⟩]), ("0xb", [⟨"hh", TxDir.sell, 1700000005⟩])]

def c6Lookup : String → String → BnbFlow :=
  fun a _ => if a = "0xa" then ⟨1, 2, 3⟩ else ⟨4, 5, 6⟩

/-- Witness for C6: on the concrete fixture the trace is duplicate-free
and the cached entries of the two addresses for the shared hash resolve
through the theorem to their own lookups. -/
theorem C6_tx_cache_two_level_witness :
    (buildTxCache c6Buyers c6Lookup).2.Nodup ∧
      c6Lookup "0xa" "hh" = c6Lookup "0xa" "hh" ∧
      c6Lookup "0xb" "hh" = c6Lookup "0xb" "hh" :=
  ⟨(C6_tx_cache_two_level c6Buyers c6Lookup).1,
   (C6_tx_cache_two_level c6Buyers c6Lookup).2 "0xa" _ "hh" _ rfl rfl,
   (C6_tx_cache_two_level c6Buyers c6Lookup).2 "0xb" _ "hh" _ rfl rfl⟩

theorem sellDebit_all_fbt {fr : String} {amt : ℚ} {ts : ℤ} {s : ScanState} {a : String}
    {l0 : LedgerEntry} (h : lookupA (sellDebit fr amt ts s).all_buyers a = some l0) :
    ∃ l1, lookupA s.all_buyers a = some l1 ∧ l0.first_buy_time = l1.first_buy_time := by
  rw [sellDebit_all_lookup] at h
  split at h
  · cases hm : lookupA s.all_buyers a with
    | none => rw [hm] at h; simp at h
    | some e =>
      rw [hm, Option.map_some'] at h
      cases Option.some.inj h
      exact ⟨e, rfl, rfl⟩
  · exact ⟨l0, h, rfl⟩

theorem buyCredit_all_fbt {t : String} {amt : ℚ} {s : ScanState} {a : String}
    {l0 : LedgerEntry} (h : lookupA (buyCredit t amt s).all_buyers a = some l0) :
    ∃ l1, lookupA s.all_buyers a = some l1 ∧ l0.first_buy_time = l1.first_buy_time := by
  rw [buyCredit_all_lookup] at h
  split at h
  · cases hm : lookupA s.all_buyers a with
    | none => rw [hm] at h; simp at h
    | some e =>
      rw [hm, Option.map_some'] at h
      cases Option.some.inj h
      exact ⟨e, rfl, rfl⟩
  · exact ⟨l0, h, rfl⟩

theorem registerRecipient_all_new {t : String} {ts : ℤ} {s : ScanState} {a : String}
    {e : LedgerEntry} (h : lookupA (registerRecipient t ts s).all_buyers a = some e) :
    lookupA s.all_buyers a = some e ∨
      (lookupA s.all_buyers a = none ∧ a = t ∧ e = freshLedger ts) := by
  unfold registerRecipient at h
  split at h
  · exact Or.inl h
  · rw [lookupA_append] at h
    cases hm : lookupA s.all_buyers a with
    | some v => rw [hm] at h; exact Or.inl h
    | none =>
      rw [hm, lookupA_singleton] at h
      split_ifs at h with hk
      cases Option.some.inj h
      exact Or.inr ⟨rfl, hk.symm, rfl⟩

theorem scanSellStage_all_fbt {fr hs : String} {amt : ℚ} {ts : ℤ} {s3 : ScanState}
    {a : String} {l0 : LedgerEntry}
    (h : lookupA (if containsKey s3.all_buyers fr then
        (if hs ≠ "" ∧ containsKey (sellDebit fr amt ts s3).address_txs fr then
          recordTx fr hs TxDir.sell ts (sellDebit fr amt ts s3)
        else sellDebit fr amt ts s3)
      else s3).all_buyers a = some l0) :
    ∃ l1, lookupA s3.all_buyers a = some l1 ∧ l0.first_buy_time = l1.first_buy_time := by
  split at h
  · split at h
    · rw [recordTx_all] at h
      exact sellDebit_all_fbt h
    · exact sellDebit_all_fbt h
  · exact ⟨l0, h, rfl⟩

/-- Where the `first_buy_time` of a ledger entry after one scan step comes
from: either an existing entry (the field is never overwritten), or a fresh
registration stamped with the current transfer's timestamp. -/
theorem scanStep_all_fbt {dec : ℕ} {sc ec : ℤ} {s : ScanState} {tx : Transfer} {a : String}
    {l0 : LedgerEntry}
    (h : lookupA (scanStep dec sc ec s tx).all_buyers a = some l0) :
    (∃ l1, lookupA s.all_buyers a = some l1 ∧ l0.first_buy_time = l1.first_buy_time) ∨
      (lookupA s.all_buyers a = none ∧ l0.first_buy_time = tx.timeStamp) := by
  simp only [scanStep] at h
  split at h
  · exact Or.inl ⟨l0, h, rfl⟩
  · rw [cohortCheck_all] at h
    obtain ⟨l1, h1, hf1⟩ := scanSellStage_all_fbt h
    rw [scanBuyHashStage_all_lookup] at h1
    obtain ⟨l2, h2, hf2⟩ := buyCredit_all_fbt h1
    rcases registerRecipient_all_new h2 with h3 | ⟨h3, _, he⟩
    · exact Or.inl ⟨l2, h3, hf1.trans hf2⟩
    · refine Or.inr ⟨h3, ?_⟩
      rw [hf1, hf2, he]
      rfl

/-- Cohort admission happens only inside the cutoff window, judged on the
admitting transfer's timestamp (lines 637-646). -/
theorem cohortCheck_early_window {sc ec : ℤ} {t : String} {ts : ℤ} {s : ScanState}
    {a : String} (h : containsKey (cohortCheck sc ec t ts s).early_buyers a = true) :
    containsKey s.early_buyers a = true ∨ (a = t ∧ sc ≤ ts ∧ ts ≤ ec) := by
  unfold cohortCheck at h
  split at h
  · rename_i hcond
    rcases containsKey_append_back h with h2 | h2
    · exact Or.inl h2
    · exact Or.inr ⟨h2, hcond.1, hcond.2.1⟩
  · exact Or.inl h

theorem scanStep_early_window {dec : ℕ} {sc ec : ℤ} {s : ScanState} {tx : Transfer}
    {a : String} (h : containsKey (scanStep dec sc ec s tx).early_buyers a = true) :
    containsKey s.early_buyers a = true ∨
      (a = strLower tx.toAddr ∧ sc ≤ tx.timeStamp ∧ tx.timeStamp ≤ ec) := by
  simp only [scanStep] at h
  split at h
  · exact Or.inl h
  · rcases cohortCheck_early_window h with h2 | h2
    · rw [scanSellStage_early, scanBuyHashStage_early, buyCredit_early,
        registerRecipient_early] at h2
      exact Or.inl h2
    · exact Or.inr h2

/-- Every recorded `first_buy_time` is the timestamp of some input
transfer. -/
theorem ledgerScan_fbt_mem (transfers : List Transfer) (dec : ℕ) (sc ec : ℤ) :
    ∀ a l0, lookupA (ledgerScan transfers dec sc ec).all_buyers a = some l0 →
      l0.first_buy_time ∈ transfers.map Transfer.timeStamp := by
  unfold ledgerScan
  refine scan_foldl_invariant
    (fun st => ∀ a l0, lookupA st.all_buyers a = some l0 →
      l0.first_buy_time ∈ transfers.map Transfer.timeStamp) dec sc ec transfers ⟨[], [], []⟩
    (fun a l0 h => by simp [lookupA] at h) ?_
  intro s tx htx hP a l0 h
  rcases scanStep_all_fbt h with ⟨l1, h1, hf⟩ | ⟨_, hf⟩
  · exact hf ▸ hP a l1 h1
  · exact hf ▸ List.mem_map_of_mem Transfer.timeStamp htx

/-- On an ascending transfer list, the ledger `first_buy_time` of every
cohort member is at most the end cutoff. -/
theorem scan_sorted_fbt_le (dec : ℕ) (sc ec : ℤ) :
    ∀ (l : List Transfer) (st : ScanState),
      l.Pairwise (fun t1 t2 => t1.timeStamp ≤ t2.timeStamp) →
      (∀ a l0, lookupA st.all_buyers a = some l0 →
        ∀ t2 ∈ l, l0.first_buy_time ≤ t2.timeStamp) →
      (∀ a, containsKey st.early_buyers a = true → containsKey st.all_buyers a = true) →
      (∀ a, containsKey st.early_buyers a = true →
        ∀ l0, lookupA st.all_buyers a = some l0 → l0.first_buy_time ≤ ec) →
      ∀ a, containsKey (l.foldl (scanStep dec sc ec) st).early_buyers a = true →
        ∀ l0, lookupA (l.foldl (scanStep dec sc ec) st).all_buyers a = some l0 →
          l0.first_buy_time ≤ ec := by
  intro l
  induction l with
  | nil => intro st _ _ _ hB; exact hB
  | cons tx rest ih =>
    intro st hsort hA hD hB
    rw [List.foldl_cons]
    obtain ⟨hhead, htail⟩ := List.pairwise_cons.mp hsort
    refine ih (scanStep dec sc ec st tx) htail ?_ (scanStep_cohort_subset hD) ?_
    · intro a l0 h t2 ht2
      rcases scanStep_all_fbt h with ⟨l1, h1, hf⟩ | ⟨_, hf⟩
      · exact hf ▸ hA a l1 h1 t2 (List.mem_cons_of_mem tx ht2)
      · exact hf ▸ hhead t2 ht2
    · intro a ha l0 hl0
      rcases scanStep_early_window ha with hold | ⟨_, _, hec2⟩
      · rcases scanStep_all_fbt hl0 with ⟨l1, h1, hf⟩ | ⟨hnone, _⟩
        · exact hf ▸ hB a hold l1 h1
        · have hD2 := hD a hold
          unfold containsKey at hD2
          rw [hnone] at hD2
          simp at hD2
      · rcases scanStep_all_fbt hl0 with ⟨l1, h1, hf⟩ | ⟨_, hf⟩
        · exact hf ▸ (hA a l1 h1 tx (List.mem_cons_self tx rest)).trans hec2
        · exact hf ▸ hec2

theorem ledgerScan_sorted_cohort_fbt (transfers : List Transfer) (dec : ℕ) (sc ec : ℤ)
    (hsort : transfers.Pairwise (fun t1 t2 => t1.timeStamp ≤ t2.timeStamp)) :
    ∀ a, containsKey (ledgerScan transfers dec sc ec).early_buyers a = true →
      ∀ l0, lookupA (ledgerScan transfers dec sc ec).all_buyers a = some l0 →
        l0.first_buy_time ≤ ec := by
  unfold ledgerScan
  exact scan_sorted_fbt_le dec sc ec transfers ⟨[], [], []⟩ hsort
    (fun a l0 h => by simp [lookupA] at h)
    (fun a h => by simp [containsKey, lookupA] at h)
    (fun a h => by simp [containsKey, lookupA] at h)

theorem foldl_min_ts_le :
    ∀ (l : List Transfer) (init : ℤ),
      (l.foldl (fun m t2 => min m t2.timeStamp) init ≤ init) ∧
      ∀ t2 ∈ l, l.foldl (fun m t2 => min m t2.timeStamp) init ≤ t2.timeStamp := by
  intro l
  induction l with
  | nil => exact fun init => ⟨le_refl _, fun t2 h => absurd h (List.not_mem_nil _)⟩
  | cons t rest ih =>
    intro init
    rw [List.foldl_cons]
    refine ⟨(ih (min init t.timeStamp)).1.trans (min_le_left _ _), ?_⟩
    intro t2 h2
    rcases List.mem_cons.mp h2 with h2 | h2
    · rw [h2]
      exact (ih (min init t.timeStamp)).1.trans (min_le_right _ _)
    · exact (ih (min init t.timeStamp)).2 t2 h2

/-- `creation_time` (line 583) is a lower bound on every timestamp. -/
theorem creationTime_le {transfers : List Transfer} {tx : Transfer} (h : tx ∈ transfers) :
    creationTime transfers ≤ tx.timeStamp := by
  cases transfers with
  | nil => cases h
  | cons t ts =>
    unfold creationTime
    rcases List.mem_cons.mp h with h2 | h2
    · rw [h2]
      exact (foldl_min_ts_le ts t.timeStamp).1
    · exact (foldl_min_ts_le ts t.timeStamp).2 tx h2

/-- Fixture for the first C1 example: creation at T0, a single incoming
transfer to `0xa` at T0+10, window `[0, 60]`. -/
def c1aTransfers : List Transfer :=
  [⟨"0xx", "0xb", 100, 1700000000, none, "h1"⟩,
   ⟨"0xy", "0xa", 100, 1700000010, none, "h2"⟩]

def c1aRes : AnalysisResult :=
  (analyze_transfers c1aTransfers ⟨0, 0, 0, 100⟩ 0 60 false (fun _ _ => ⟨0, 0, 0⟩)
    1700001000).getD ⟨⟨0, 0, 0, 100⟩, ⟨0, 0, 0, 0, 0, 0⟩, []⟩

/-- Fixture for the second C1 example: the only incoming transfer to `0xa`
is at T0+70, outside the window `[0, 60]`. -/
def c1bTransfers : List Transfer :=
  [⟨"0xx", "0xb", 100, 1700000000, none, "h1"⟩,
   ⟨"0xy", "0xa", 100, 1700000070, none, "h2"⟩]

def c1bRes : AnalysisResult :=
  (analyze_transfers c1bTransfers ⟨0, 0, 0, 100⟩ 0 60 false (fun _ _ => ⟨0, 0, 0⟩)
    1700001000).getD ⟨⟨0, 0, 0, 100⟩, ⟨0, 0, 0, 0, 0, 0⟩, []⟩

/-- Fixture for the C1 counterexample: `0xa` first receives at T0+5,
before the `[10, 60]` window opens, and is admitted to the cohort by its
second incoming transfer at T0+20. -/
def c1cTransfers : List Transfer :=
  [⟨"0xx", "0xb", 100, 1700000000, none, "h1"⟩,
   ⟨"0xy", "0xa", 100, 1700000005, none, "h2"⟩,
   ⟨"0xz", "0xa", 100, 1700000020, none, "h3"⟩]

def c1cRes : AnalysisResult :=
  (analyze_transfers c1cTransfers ⟨0, 0, 0, 100⟩ 10 60 false (fun _ _ => ⟨0, 0, 0⟩)
    1700001000).getD ⟨⟨0, 0, 0, 100⟩, ⟨0, 0, 0, 0, 0, 0⟩, []⟩

/-- C1, refuted as stated: cohort admission tests the admitting transfer's
timestamp, but the reported `first_buy_timestamp` is the address's
first-ever incoming timestamp, which may lie before the window opens. -/
theorem C1_counterexample :
    ∃ b ∈ c1cRes.buyers, b.address = "0xa" ∧
      b.first_buy_timestamp < creationTime c1cTransfers + 10 := by
  decide

/-- C1 (amended): on an ascending transfer list with `start_seconds = 0`,
every reported cohort member's `first_buy_timestamp` lies within
`[creationTime + start_seconds, creationTime + end_seconds]`; and the two
window examples hold: with creation T0 and window `[0, 60]`, the address
whose only incoming transfer is at T0+10 is in the cohort, and the one
whose only incoming transfer is at T0+70 is not. -/
theorem C1_cohort_window_bounds :
    (∀ (transfers : List Transfer) (token_info : TokenInfo)
      (start_seconds end_seconds : ℤ) (api_key : Bool)
      (lookup : String → String → BnbFlow) (current_time : ℤ)
      (r : AnalysisResult) (b : ReportEntry),
      analyze_transfers transfers token_info start_seconds end_seconds api_key lookup
        current_time = some r →
      transfers.Pairwise (fun t1 t2 => t1.timeStamp ≤ t2.timeStamp) →
      start_seconds = 0 →
      b ∈ r.buyers →
      creationTime transfers + start_seconds ≤ b.first_buy_timestamp ∧
        b.first_buy_timestamp ≤ creationTime transfers + end_seconds) ∧
    (∃ b ∈ c1aRes.buyers, b.address = "0xa") ∧
    (∀ b ∈ c1bRes.buyers, b.address ≠ "0xa") := by
  refine ⟨?_, by decide, by decide⟩
  intro transfers token_info ss es api_key lookup ct r b hr hsort hss hb
  rw [buyers_of_analyze hr] at hb
  unfold buyersList at hb
  have hb2 := (List.perm_insertionSort reportLe _).subset hb
  obtain ⟨p, hp, heq⟩ := List.mem_map.mp hb2
  have hbts : b.first_buy_timestamp = p.2.first_buy_time := heq ▸ rfl
  have hkey := cohortEntries_key_in_scan hp
  unfold scanOf at hkey
  have hall := ledgerScan_cohort_subset_all transfers token_info.decimals
    (creationTime transfers + ss) (creationTime transfers + es) p.1 hkey
  unfold containsKey at hall
  obtain ⟨l, hl⟩ := Option.isSome_iff_exists.mp hall
  unfold cohortEntries scanOf at hp
  obtain ⟨q, hq, hpq, hcases⟩ := mem_applyLedgerUpdate hp
  rcases hcases with ⟨l2, hl2, hfbt, _⟩ | ⟨hnone, _⟩
  · rw [← hpq] at hl2
    rw [hl] at hl2
    cases Option.some.inj hl2
    have hup := ledgerScan_sorted_cohort_fbt transfers token_info.decimals
      (creationTime transfers + ss) (creationTime transfers + es) hsort p.1 hkey l hl
    have hmem := ledgerScan_fbt_mem transfers token_info.decimals
      (creationTime transfers + ss) (creationTime transfers + es) p.1 l hl
    obtain ⟨tx, htx, hts⟩ := List.mem_map.mp hmem
    have hlow : creationTime transfers ≤ l.first_buy_time := hts ▸ creationTime_le htx
    rw [hbts, hfbt]
    constructor <;> omega
  · rw [← hpq, hl] at hnone
    cases hnone

/-- Witness for C1 on the first example fixture: the cohort member's
reported first-buy timestamp respects the window bounds. -/
theorem C1_cohort_window_bounds_witness :
    ∃ b, b ∈ c1aRes.buyers ∧
      creationTime c1aTransfers + 0 ≤ b.first_buy_timestamp ∧
      b.first_buy_timestamp ≤ creationTime c1aTransfers + 60 := by
  have hne : c1aRes.buyers ≠ [] := by decide
  refine ⟨c1aRes.buyers.head hne, List.head_mem hne, ?_⟩
  exact C1_cohort_window_bounds.1 c1aTransfers ⟨0, 0, 0, 100⟩ 0 60 false
    (fun _ _ => ⟨0, 0, 0⟩) 1700001000 c1aRes _ rfl (by decide) rfl (List.head_mem hne)

/-- Every final report entry renders its own numeric first-buy timestamp,
and that timestamp is one of the input transfer timestamps. -/
theorem buyersList_member_fbt {transfers : List Transfer} {token_info : TokenInfo}
    {start_seconds end_seconds : ℤ} {api_key : Bool}
    {lookup : String → String → BnbFlow} {current_time : ℤ} {b : ReportEntry}
    (hb : b ∈ buyersList transfers token_info start_seconds end_seconds api_key lookup
      current_time) :
    b.first_buy_time = formatTimestamp b.first_buy_timestamp ∧
      b.first_buy_timestamp ∈ transfers.map Transfer.timeStamp := by
  unfold buyersList at hb
  have hb2 := (List.perm_insertionSort reportLe _).subset hb
  obtain ⟨p, hp, heq⟩ := List.mem_map.mp hb2
  have hkey := cohortEntries_key_in_scan hp
  unfold scanOf at hkey
  have hall := ledgerScan_cohort_subset_all transfers token_info.decimals
    (creationTime transfers + start_seconds) (creationTime transfers + end_seconds) p.1 hkey
  unfold containsKey at hall
  obtain ⟨l, hl⟩ := Option.isSome_iff_exists.mp hall
  unfold cohortEntries scanOf at hp
  obtain ⟨q, hq, hpq, hcases⟩ := mem_applyLedgerUpdate hp
  rcases hcases with ⟨l2, hl2, hfbt, _⟩ | ⟨hnone, _⟩
  · rw [← hpq] at hl2
    rw [hl] at hl2
    cases Option.some.inj hl2
    have hmem := ledgerScan_fbt_mem transfers token_info.decimals
      (creationTime transfers + start_seconds) (creationTime transfers + end_seconds) p.1 l hl
    refine ⟨?_, ?_⟩
    · rw [← heq]
      rfl
    · have hb3 : b.first_buy_timestamp = p.2.first_buy_time := heq ▸ rfl
      rw [hb3, hfbt]
      exact hmem
  · rw [← hpq, hl] at hnone
    cases hnone

/-- C9: the final buyers list is sorted ascending by the numeric first-buy
timestamp, provided every transfer timestamp lies in `[0, 250000000000)`
(through year 9999, where the fixed-width date rendering is monotone):
the comparison of the formatted first-buy strings agrees with the numeric
order. -/
theorem C9_sorted_by_first_buy_time (transfers : List Transfer) (token_info : TokenInfo)
    (start_seconds end_seconds : ℤ) (api_key : Bool)
    (lookup : String → String → BnbFlow) (current_time : ℤ) (r : AnalysisResult)
    (hr : analyze_transfers transfers token_info start_seconds end_seconds api_key lookup
      current_time = some r)
    (hts : ∀ tx ∈ transfers, 0 ≤ tx.timeStamp ∧ tx.timeStamp < 250000000000) :
    r.buyers.Pairwise (fun b1 b2 => b1.first_buy_timestamp ≤ b2.first_buy_timestamp) := by
  rw [buyers_of_analyze hr]
  haveI : IsTotal ReportEntry reportLe :=
    ⟨fun a b => strLeB_total a.first_buy_time b.first_buy_time⟩
  haveI : IsTrans ReportEntry reportLe := ⟨fun a b c h1 h2 => strLeB_trans h1 h2⟩
  have hsorted : (buyersList transfers token_info start_seconds end_seconds api_key lookup
      current_time).Pairwise reportLe := by
    unfold buyersList
    exact List.sorted_insertionSort reportLe _
  refine List.Pairwise.imp_of_mem (fun {b1 b2} h1 h2 hle => ?_) hsorted
  obtain ⟨hf1, hm1⟩ := buyersList_member_fbt h1
  obtain ⟨hf2, hm2⟩ := buyersList_member_fbt h2
  obtain ⟨t1x, ht1x, hts1⟩ := List.mem_map.mp hm1
  obtain ⟨t2x, ht2x, hts2⟩ := List.mem_map.mp hm2
  have hr1 := hts t1x ht1x
  have hr2 := hts t2x ht2x
  unfold reportLe at hle
  rw [hf1, hf2] at hle
  exact le_of_strLeB_format (by omega) (by omega) (by omega) hle

/-- Fixture of the C9 witness: two cohort buyers with distinct first-buy
timestamps. -/
def c9Transfers : List Transfer :=
  [⟨"0xx", "0xb", 100, 1700000000, none, "h1"⟩,
   ⟨"0xy", "0xa", 100, 1700000010, none, "h2"⟩]

def c9Res : AnalysisResult :=
  (analyze_transfers c9Transfers ⟨0, 0, 0, 100⟩ 0 60 false (fun _ _ => ⟨0, 0, 0⟩)
    1700001000).getD ⟨⟨0, 0, 0, 100⟩, ⟨0, 0, 0, 0, 0, 0⟩, []⟩

/-- Witness for C9 on a concrete two-buyer run. -/
theorem C9_sorted_by_first_buy_time_witness :
    c9Res.buyers.Pairwise (fun b1 b2 => b1.first_buy_timestamp ≤ b2.first_buy_timestamp) :=
  C9_sorted_by_first_buy_time c9Transfers ⟨0, 0, 0, 100⟩ 0 60 false (fun _ _ => ⟨0, 0, 0⟩)
    1700001000 c9Res rfl (by decide)

end MemeRadar
